import Mathlib

/-!
Verification of the UX570-Importer core: filename classification,
destination-path planning, the per-file and batch import operations,
the checksum subsystem, and source-folder discovery, shallowly embedded
from `src/ux570_importer/core.py`, `src/ux570_importer/checksum.py` and
the script `dvr-import.py`.
-/

namespace UX570

/-! ### Python string and path primitives -/

/-- Value of a nonempty list of ASCII decimal digits, most significant first. -/
def digitsToNat (cs : List Char) : Nat :=
  cs.foldl (fun a c => 10 * a + (c.toNat - 48)) 0

/-- Whether a character list is a valid body of a Python `int()` literal
(after the optional sign): nonempty, ASCII digits possibly separated by
single underscores, with no leading, trailing or doubled underscore. -/
def intBodyOk (cs : List Char) : Bool :=
  !cs.isEmpty &&
  cs.head? != some '_' &&
  cs.getLast? != some '_' &&
  cs.all (fun c => c.isDigit || c = '_') &&
  !(cs.zip cs.tail).any (fun p => p.1 = '_' && p.2 = '_')

/-- Python `str.strip()`: drop whitespace from both ends. -/
def pyStrip (cs : List Char) : List Char :=
  ((cs.dropWhile Char.isWhitespace).reverse.dropWhile Char.isWhitespace).reverse

/-- Python `int(s)`: strips surrounding whitespace, accepts an optional
sign followed by digits (ASCII model), returns `none` where `int` raises
`ValueError`. -/
def pyInt (s : String) : Option Int :=
  let t := pyStrip s.data
  let sb : Int × List Char :=
    match t with
    | '+' :: rest => (1, rest)
    | '-' :: rest => (-1, rest)
    | _ => (1, t)
  if intBodyOk sb.2 then some (sb.1 * digitsToNat (sb.2.filter (fun c => c ≠ '_')))
  else none

/-- Split a character list at every occurrence of `c`; the separators are
dropped and empty runs are kept (model of `str.split(sep)`). -/
def splitChar (c : Char) (cs : List Char) : List (List Char) :=
  cs.foldr
    (fun x acc =>
      match acc with
      | [] => [[x]]
      | a :: as => if x = c then [] :: a :: as else (x :: a) :: as)
    [[]]

/-- The components of a POSIX path string as `pathlib` parses it: split on
`/`, drop empty components and `.` components (the root is tracked
separately). -/
def pathParts (s : String) : List String :=
  ((splitChar '/' s.data).map (fun cs => (⟨cs⟩ : String))).filter
    (fun p => p ≠ "" && p ≠ ".")

/-- `pathlib.Path(s).name`: the final component of the path, `""` when
there is none. -/
def pyName (s : String) : String :=
  (pathParts s).getLastD ""

/-- Index of the last `.` in a name, if any (Python `name.rfind('.')`). -/
def rfindDot (cs : List Char) : Option Nat :=
  (cs.reverse.findIdx? (fun c => c = '.')).map (fun j => cs.length - 1 - j)

/-- `pathlib` `stem` of a final path component: the name without its last
suffix; the suffix only exists when the last dot is neither the first nor
the last character. -/
def pyStem (name : String) : String :=
  let cs := name.data
  match rfindDot cs with
  | some i => if 0 < i ∧ i < cs.length - 1 then ⟨cs.take i⟩ else name
  | none => name

/-- `pathlib` `suffix` of a final path component (see `pyStem`). -/
def pySuffix (name : String) : String :=
  let cs := name.data
  match rfindDot cs with
  | some i => if 0 < i ∧ i < cs.length - 1 then ⟨cs.drop i⟩ else ""
  | none => ""

/-! ### The month table (`core.MONTHS`) -/

/-- `core.MONTHS`: two-digit month code to month folder label. -/
def MONTHS : List (String × String) :=
  [("01", "01-January"), ("02", "02-February"), ("03", "03-March"),
   ("04", "04-April"), ("05", "05-May"), ("06", "06-June"),
   ("07", "07-July"), ("08", "08-August"), ("09", "09-September"),
   ("10", "10-October"), ("11", "11-November"), ("12", "12-December")]

/-- Dictionary lookup `MONTHS[m]` as an `Option`. -/
def monthLookup (m : String) : Option String :=
  (MONTHS.find? (fun p => p.1 = m)).map Prod.snd

/-! ### The filename codec (`core.parse_filename`) -/

/-- `core.parse_filename`: parse a Sony DVR filename `YYMMDD_HHMM.ext`
into its `(month, day)` classification, `none` when parsing fails.
`stem.split("_")[0]` is the prefix of the stem before the first
underscore, modelled with `takeWhile`. -/
def parse_filename (filename : String) : Option (String × String) :=
  let stem := (pyStem (pyName filename)).data
  if stem.length < 6 || !stem.contains '_' then none
  else
    let date_part := stem.takeWhile (fun c => c ≠ '_')
    if date_part.length ≠ 6 then none
    else
      let month : String := ⟨(date_part.drop 2).take 2⟩
      let day : String := ⟨(date_part.drop 4).take 2⟩
      if (monthLookup month).isNone then none
      else
        match pyInt day with
        | none => none
        | some n => if 1 ≤ n ∧ n ≤ 31 then some (month, day) else none

example : parse_filename "240315_1430.mp3" = some ("03", "15") := by decide
example : parse_filename "240000_1430.mp3" = none := by decide
example : parse_filename "2403151430.mp3" = none := by decide
example : parse_filename "240315.mp3" = none := by decide
example : parse_filename "24031_1430.mp3" = none := by decide
example : parse_filename "2403x5_1430.mp3" = none := by decide
example : parse_filename "240332_1430.mp3" = none := by decide
example : parse_filename "991231_0000.wav" = some ("12", "31") := by decide

/-- The success condition of the filename codec as the specification
states it: the extension-stripped stem is at least 6 characters long and
contains an underscore, the segment before the first underscore is
exactly 6 characters, its characters `[2:4]` are one of the twelve month
codes, its characters `[4:6]` parse as an integer in `[1, 31]`, and the
returned pair consists of those two substrings exactly as found. -/
def classifiedSpec (filename m d : String) : Prop :=
  6 ≤ (pyStem (pyName filename)).data.length ∧
  '_' ∈ (pyStem (pyName filename)).data ∧
  (((pyStem (pyName filename)).data.takeWhile (fun c => c ≠ '_')).length = 6) ∧
  m = ⟨(((pyStem (pyName filename)).data.takeWhile (fun c => c ≠ '_')).drop 2).take 2⟩ ∧
  d = ⟨(((pyStem (pyName filename)).data.takeWhile (fun c => c ≠ '_')).drop 4).take 2⟩ ∧
  m ∈ MONTHS.map Prod.fst ∧
  ∃ n : Int, pyInt d = some n ∧ 1 ≤ n ∧ n ≤ 31

lemma monthLookup_isSome_iff (m : String) :
    (monthLookup m).isSome ↔ m ∈ MONTHS.map Prod.fst := by
  unfold monthLookup
  simp [List.find?_isSome, List.mem_map]

lemma not_isNone_isSome {α : Type} {o : Option α} (h : ¬ o.isNone = true) :
    o.isSome = true := by
  cases o
  · simp at h
  · rfl

lemma isSome_not_isNone {α : Type} {o : Option α} (h : o.isSome = true) :
    ¬ o.isNone = true := by
  cases o
  · simp at h
  · simp

lemma codec_guard {len : Nat} {b : Bool} (h : ¬ (decide (len < 6) || !b) = true) :
    6 ≤ len ∧ b = true := by
  rcases Nat.lt_or_ge len 6 with hlt | hge
  · exact absurd (by simp [hlt]) h
  · refine ⟨hge, ?_⟩
    cases b
    · exact absurd (by simp) h
    · rfl

/-- C2: classification returns `some (month, day)` exactly when the
extension-stripped stem is at least 6 characters and contains `_`, the
segment before the first `_` is exactly 6 characters, its characters
`[2:4]` are one of the twelve codes `"01".."12"`, and its characters
`[4:6]` parsed as an integer lie in `[1, 31]`; otherwise it returns
`none` (no exception is modelled: parse failures are the `none` value),
and on success the returned day is the two-character substring exactly
as found in the filename. -/
theorem parse_filename_spec (f m d : String) :
    parse_filename f = some (m, d) ↔ classifiedSpec f m d := by
  unfold parse_filename classifiedSpec
  constructor
  · intro h
    dsimp only at h
    split at h
    · exact Option.noConfusion h
    next h1 =>
      split at h
      next h2 => exact Option.noConfusion h
      next h2 =>
        split at h
        next h3 => exact Option.noConfusion h
        next h3 =>
          split at h
          next hpi => exact Option.noConfusion h
          next n hpi =>
            split at h
            next h4 =>
              simp only [Option.some.injEq, Prod.mk.injEq] at h
              obtain ⟨hm, hd⟩ := h
              obtain ⟨h6, hb⟩ := codec_guard h1
              have hmem := (monthLookup_isSome_iff _).mp (not_isNone_isSome h3)
              exact ⟨h6, List.elem_iff.mp hb, by omega,
                hm.symm, hd.symm, hm ▸ hmem, n, hd ▸ hpi, h4.1, h4.2⟩
            next h4 => exact Option.noConfusion h
  · rintro ⟨h6, hu, h2, hm, hd, hmem, n, hn, hl, hr⟩
    have hc1 : decide ((pyStem (pyName f)).data.length < 6) = false :=
      decide_eq_false (by omega)
    have hc2 : (!(pyStem (pyName f)).data.contains '_') = false := by
      rw [Bool.not_eq_false']
      exact List.elem_iff.mpr hu
    rw [if_neg (by rw [hc1, hc2]; simp)]
    rw [if_neg (not_not_intro h2)]
    rw [if_neg (isSome_not_isNone ((monthLookup_isSome_iff _).mpr (hm ▸ hmem)))]
    rw [hd] at hn
    split
    next hpi =>
      rw [hn] at hpi
      exact Option.noConfusion hpi
    next k hpi =>
      rw [hn] at hpi
      obtain rfl : n = k := Option.some.inj hpi
      rw [if_pos ⟨hl, hr⟩, hm, hd]

/-! ### Paths (`pathlib.Path`) -/

/-- A POSIX path as `pathlib` represents it: whether the path is
absolute (has the root `/`), and its list of components. -/
structure PPath where
  absolute : Bool
  parts : List String
deriving DecidableEq, Repr

/-- The `/` operator of `pathlib`: joining with an absolute string
resets the whole path, otherwise the string's components are appended. -/
def pdiv (p : PPath) (s : String) : PPath :=
  if s.data.head? = some '/' then ⟨true, pathParts s⟩
  else ⟨p.absolute, p.parts ++ pathParts s⟩

lemma splitChar_cons (c x : Char) (xs : List Char) :
    splitChar c (x :: xs) =
      match splitChar c xs with
      | [] => [[x]]
      | a :: as => if x = c then [] :: a :: as else (x :: a) :: as := rfl

lemma splitChar_ne_nil (c : Char) (cs : List Char) : splitChar c cs ≠ [] := by
  induction cs with
  | nil => simp [splitChar]
  | cons x xs ih =>
    rw [splitChar_cons]
    rcases h : splitChar c xs with - | ⟨a, as⟩
    · exact absurd h ih
    · by_cases hx : x = c <;> simp [hx]

lemma splitChar_of_not_mem {c : Char} {cs : List Char} (h : c ∉ cs) :
    splitChar c cs = [cs] := by
  induction cs with
  | nil => rfl
  | cons x xs ih =>
    have hx : ¬ x = c := fun he => h (by rw [he]; exact List.mem_cons_self c xs)
    rw [splitChar_cons, ih (fun hm => h (List.mem_cons_of_mem _ hm))]
    simp [hx]

lemma splitChar_sep_not_mem {c : Char} {cs : List Char} :
    ∀ l ∈ splitChar c cs, c ∉ l := by
  induction cs with
  | nil =>
    intro l hl
    simp [splitChar] at hl
    simp [hl]
  | cons x xs ih =>
    intro l hl
    rw [splitChar_cons] at hl
    rcases hsp : splitChar c xs with - | ⟨a, as⟩
    · exact absurd hsp (splitChar_ne_nil c xs)
    · rw [hsp] at hl
      by_cases hx : x = c
      · simp only [if_pos hx] at hl
        rcases List.mem_cons.mp hl with rfl | hl
        · exact List.not_mem_nil c
        · exact ih l (hsp ▸ hl)
      · simp only [if_neg hx] at hl
        rcases List.mem_cons.mp hl with rfl | hl
        · intro hm
          rcases List.mem_cons.mp hm with rfl | hm
          · exact hx rfl
          · exact ih a (hsp ▸ List.mem_cons_self a as) hm
        · exact ih l (hsp ▸ List.mem_cons_of_mem a hl)

lemma pathParts_single {s : String} (h1 : '/' ∉ s.data) (h2 : s ≠ "")
    (h3 : s ≠ ".") : pathParts s = [s] := by
  unfold pathParts
  rw [splitChar_of_not_mem h1]
  simp only [List.map_cons, List.map_nil]
  have : (⟨s.data⟩ : String) = s := rfl
  rw [this]
  rw [List.filter_cons]
  rw [if_pos (by simp [h2, h3])]
  rfl

lemma pdiv_single (p : PPath) {s : String} (h1 : '/' ∉ s.data) (h2 : s ≠ "")
    (h3 : s ≠ ".") : pdiv p s = ⟨p.absolute, p.parts ++ [s]⟩ := by
  unfold pdiv
  have hng : ¬ s.data.head? = some '/' := fun hh => h1 (List.mem_of_mem_head? hh)
  rw [if_neg hng]
  rw [pathParts_single h1 h2 h3]

lemma stem_chars_subset {n : String} : ∀ x ∈ (pyStem n).data, x ∈ n.data := by
  intro x hx
  unfold pyStem at hx
  dsimp only at hx
  split at hx
  · split at hx
    · exact List.mem_of_mem_take hx
    · exact hx
  · exact hx

/-- All month folder labels are plain single path components. -/
lemma MONTHS_labels_ok :
    ∀ p ∈ MONTHS, '/' ∉ p.2.data ∧ p.2 ≠ "" ∧ p.2 ≠ "." := by decide

/-! ### The path planner (`core.get_dest_path`) -/

/-- `core.get_dest_path`: destination path for a filename, or `none` when
the filename does not classify. `MONTHS[month]` cannot fail after a
successful parse (the parser checked membership), so the `.getD ""`
default is unreachable. -/
def get_dest_path (filename : String) (dest_base : PPath) : Option PPath :=
  match parse_filename filename with
  | none => none
  | some (month, day) =>
    let month_folder := (monthLookup month).getD ""
    some (pdiv (pdiv (pdiv dest_base month_folder) day) filename)

lemma monthLookup_label_ok {m mf : String} (h : monthLookup m = some mf) :
    '/' ∉ mf.data ∧ mf ≠ "" ∧ mf ≠ "." := by
  unfold monthLookup at h
  rw [Option.map_eq_some'] at h
  obtain ⟨q, hq, rfl⟩ := h
  exact MONTHS_labels_ok q (List.mem_of_find?_eq_some hq)

/-- C3: the path planner returns `none` exactly when classification
fails, and otherwise returns `destinationRoot / monthFolder / day /
filename` with the original filename preserved verbatim as the final
component; being a plain function of `(dest_base, filename)`, it is
deterministic, so two files with the same name always target the same
destination path. The hypothesis restricts to genuine file names (no
`/`), which is what the importer passes (`src.name`). -/
theorem get_dest_path_spec (base : PPath) (f : String) (hs : '/' ∉ f.data) :
    (get_dest_path f base = none ↔ parse_filename f = none) ∧
    ∀ m d mf, parse_filename f = some (m, d) → monthLookup m = some mf →
      get_dest_path f base = some ⟨base.absolute, base.parts ++ [mf, d, f]⟩ := by
  constructor
  · unfold get_dest_path
    cases hp : parse_filename f with
    | none => simp
    | some md => simp
  · intro m d mf hp hmf
    have hne : f ≠ "" := by
      intro he
      rw [he] at hp
      rw [show parse_filename "" = none from by decide] at hp
      exact Option.noConfusion hp
    have hnd : f ≠ "." := by
      intro he
      rw [he] at hp
      rw [show parse_filename "." = none from by decide] at hp
      exact Option.noConfusion hp
    have hname : pyName f = f := by
      unfold pyName
      rw [pathParts_single hs hne hnd]
      rfl
    obtain ⟨-, -, h2, -, hd, -, -⟩ := (parse_filename_spec f m d).mp hp
    have hdd : d.data =
        (((pyStem (pyName f)).data.takeWhile (fun c => c ≠ '_')).drop 4).take 2 := by
      rw [hd]
    have hdlen : d.data.length = 2 := by
      rw [hdd, List.length_take, List.length_drop, h2]
      rfl
    have hdsub : ∀ x ∈ d.data, x ∈ f.data := by
      intro x hx
      rw [hd] at hx
      have hx1 := List.mem_of_mem_take hx
      have hx2 := List.mem_of_mem_drop hx1
      have hx3 := List.takeWhile_subset (fun c => c ≠ '_') hx2
      rw [hname] at hx3
      exact stem_chars_subset x hx3
    have hds : '/' ∉ d.data := fun hx => hs (hdsub '/' hx)
    have hdne : d ≠ "" := by
      intro he
      rw [he] at hdlen
      exact absurd hdlen (by decide)
    have hdnd : d ≠ "." := by
      intro he
      rw [he] at hdlen
      exact absurd hdlen (by decide)
    obtain ⟨hmfs, hmfne, hmfnd⟩ := monthLookup_label_ok hmf
    unfold get_dest_path
    rw [hp]
    dsimp only
    rw [hmf]
    dsimp only [Option.getD_some]
    rw [pdiv_single base hmfs hmfne hmfnd]
    rw [pdiv_single _ hds hdne hdnd]
    rw [pdiv_single _ hs hne hnd]
    simp [List.append_assoc]

/-- Witness for C3 at a concrete input. -/
theorem get_dest_path_spec_witness :
    ('/' ∉ "240315_1430.mp3".data) ∧
    ((get_dest_path "240315_1430.mp3" ⟨true, ["home", "rec"]⟩ = none ↔
        parse_filename "240315_1430.mp3" = none) ∧
      ∀ m d mf, parse_filename "240315_1430.mp3" = some (m, d) →
        monthLookup m = some mf →
        get_dest_path "240315_1430.mp3" ⟨true, ["home", "rec"]⟩ =
          some ⟨true, ["home", "rec"] ++ [mf, d, "240315_1430.mp3"]⟩) :=
  ⟨by decide, get_dest_path_spec ⟨true, ["home", "rec"]⟩ "240315_1430.mp3" (by decide)⟩

/-! ### Filesystem model

File contents are abstract byte strings; directories are tracked as a
set of paths so that `exists()` and `iterdir()` behave as in the code.
SHA-256 itself is kept abstract as a parameter `hash` of the operations
that use it (any deterministic content function). -/

/-- A snapshot of the filesystem: an association list of regular files
with their contents, and the list of existing directories. -/
structure FS where
  files : List (PPath × String)
  dirs : List PPath
deriving DecidableEq, Repr

/-- The content of the regular file at `p`, if present. -/
def fileAt (fs : FS) (p : PPath) : Option String :=
  (fs.files.find? (fun e => e.1 = p)).map Prod.snd

/-- `Path.is_dir()`. -/
def isDir (fs : FS) (p : PPath) : Bool :=
  fs.dirs.contains p

/-- `Path.exists()`: a regular file or a directory is present at `p`. -/
def pexists (fs : FS) (p : PPath) : Bool :=
  (fileAt fs p).isSome || isDir fs p

/-- Create or overwrite the regular file at `p` with content `c`. -/
def setFile (fs : FS) (p : PPath) (c : String) : FS :=
  ⟨(p, c) :: fs.files.filter (fun e => e.1 ≠ p), fs.dirs⟩

/-- Remove the regular file at `p`. -/
def delFile (fs : FS) (p : PPath) : FS :=
  ⟨fs.files.filter (fun e => e.1 ≠ p), fs.dirs⟩

/-- `p.mkdir(parents=True, exist_ok=True)`: create the directory and all
its ancestors. -/
def mkdirParents (fs : FS) (p : PPath) : FS :=
  ⟨fs.files,
   ((List.range (p.parts.length + 1)).map
     (fun i => (⟨p.absolute, p.parts.take i⟩ : PPath))) ++ fs.dirs⟩

/-- The name (final component) of a path, as `src.name` reads it. -/
def pname (p : PPath) : String :=
  p.parts.getLastD ""

/-! ### Checksum subsystem (`checksum.py`) -/

/-- `checksum.calculate_sha256`: digest of the file's content; `none`
where the Python function would raise on a missing file. The SHA-256
function itself is the abstract parameter `hash`; reading the file in
8192-byte chunks is observationally hashing the whole content. -/
def calculate_sha256 (hash : String → String) (fs : FS) (filepath : PPath) :
    Option String :=
  (fileAt fs filepath).map hash

/-- `filepath.with_suffix(filepath.suffix + ".sha256")`: the sidecar
path, the file's name with `.sha256` appended after the existing
suffix. -/
def sidecar_path (filepath : PPath) : PPath :=
  ⟨filepath.absolute,
   filepath.parts.dropLast ++
     [pyStem (pname filepath) ++ (pySuffix (pname filepath) ++ ".sha256")]⟩

/-- `checksum.write_sidecar`: write `<hash> *<name>
` next to the
file. -/
def write_sidecar (fs : FS) (filepath : PPath) (hash_value : String) : FS :=
  setFile fs (sidecar_path filepath)
    (hash_value ++ " *" ++ pname filepath ++ "\n")

/-- The parent directory of a path (`Path.parent`). -/
def parentDir (p : PPath) : PPath :=
  ⟨p.absolute, p.parts.dropLast⟩

/-- `PurePath.relative_to(dir)`, with the `except ValueError` fallback
of `append_to_manifest` built in: the path itself when it is not below
`dir`. -/
def relative_to (filepath dir : PPath) : PPath :=
  if filepath.absolute = dir.absolute ∧ dir.parts.isPrefixOf filepath.parts
  then ⟨false, filepath.parts.drop dir.parts.length⟩
  else filepath

/-- `str(path)`. -/
def pathStr (p : PPath) : String :=
  (if p.absolute then "/" else "") ++ String.intercalate "/" p.parts

/-- `checksum.append_to_manifest`: append one
`<hash>  <rel-path>  # imported <timestamp>
` line, creating the
manifest when absent (append mode); the `datetime.now()` timestamp is an
input. -/
def append_to_manifest (fs : FS) (manifest_path filepath : PPath)
    (hash_value timestamp : String) : FS :=
  let rel := relative_to filepath (parentDir manifest_path)
  let entry :=
    hash_value ++ "  " ++ pathStr rel ++ "  # imported " ++ timestamp ++ "\n"
  setFile fs manifest_path ((fileAt fs manifest_path).getD "" ++ entry)

/-- Python `str.lower()`. -/
def lowerStr (s : String) : String :=
  ⟨s.data.map Char.toLower⟩

/-- `checksum.verify_checksum`: recompute and compare the digests
case-insensitively; `none` where Python would raise on a missing
file. -/
def verify_checksum (hash : String → String) (fs : FS) (filepath : PPath)
    (expected_hash : String) : Option Bool :=
  (calculate_sha256 hash fs filepath).map
    (fun actual => lowerStr actual = lowerStr expected_hash)

/-- The characters before the first occurrence of `pat`
(`content.split(pat)[0]`). -/
def takeBefore (pat : List Char) : List Char → List Char
  | [] => []
  | c :: rest => if pat.isPrefixOf (c :: rest) then [] else c :: takeBefore pat rest

/-- Python `pat in s` substring test. -/
def containsSub (pat : List Char) : List Char → Bool
  | [] => pat.isEmpty
  | c :: rest => pat.isPrefixOf (c :: rest) || containsSub pat rest

/-- Split on the characters satisfying `p`, dropping empty runs
(Python `str.split()` with no argument, for `p` = whitespace). -/
def splitByPred (p : Char → Bool) (cs : List Char) : List (List Char) :=
  (cs.foldr
    (fun x acc =>
      match acc with
      | [] => [[x]]
      | a :: as => if p x then [] :: a :: as else (x :: a) :: as)
    [[]]).filter (fun l => !l.isEmpty)

/-- `checksum.verify_sidecar`: `.ok none` when no sidecar exists
(Python `None`), `.ok (some b)` for a verdict, `.error ()` where the
Python function would raise (empty sidecar content, or the data file
itself missing). -/
def verify_sidecar (hash : String → String) (fs : FS) (filepath : PPath) :
    Except Unit (Option Bool) :=
  match fileAt fs (sidecar_path filepath) with
  | none => .ok none
  | some raw =>
    let content := pyStrip raw.data
    let expected? : Option String :=
      if containsSub " *".data content then some ⟨takeBefore " *".data content⟩
      else ((splitByPred Char.isWhitespace content).head?).map
        (fun l => (⟨l⟩ : String))
    match expected? with
    | none => .error ()
    | some expected =>
      match verify_checksum hash fs filepath expected with
      | none => .error ()
      | some b => .ok (some b)

/-! ### The per-file import (`core.import_file`) -/

/-- The external conditions of one per-file import: whether
`dest_dir.mkdir` raises `OSError` when it actually has to create a
missing directory, whether the copy/move raises `OSError` (this also
covers a missing source file), whether each step of the checksum block
raises, the exception text `str(e)` and the manifest timestamp. -/
structure IOOracle where
  mkdirOk : Bool
  transferOk : Bool
  hashOk : Bool
  sidecarOk : Bool
  manifestOk : Bool
  errText : String
  timestamp : String
deriving DecidableEq, Repr

instance exceptDecEq {ε α : Type} [DecidableEq ε] [DecidableEq α] :
    DecidableEq (Except ε α)
  | .error a, .error b =>
    if h : a = b then isTrue (by rw [h])
    else isFalse (fun he => h (Except.error.inj he))
  | .error _, .ok _ => isFalse (fun he => Except.noConfusion he)
  | .ok _, .error _ => isFalse (fun he => Except.noConfusion he)
  | .ok a, .ok b =>
    if h : a = b then isTrue (by rw [h])
    else isFalse (fun he => h (Except.ok.inj he))

set_option synthInstance.maxSize 1000 in
instance : DecidableEq (FS × Nat × Nat × List String × List (Bool × String)) :=
  inferInstance

/-- `core.import_file`: import one file into the organized destination;
`.ok` of (updated filesystem, success flag, message) — the message is
also what the progress callback receives. The
`dest_dir.mkdir(parents=True, exist_ok=True)` call sits before the
`try` block, so an `OSError` raised there propagates uncaught to the
caller: modelled as `.error` carrying the filesystem (with
`exist_ok=True` an already-existing directory is never an error, so the
raise can happen only when the directory must actually be created; the
raise is modelled as leaving the filesystem unchanged — the program
never observes any partially created ancestor directory, and no file
content is touched). An `OSError` anywhere inside the `try` block —
transfer or any checksum step — is caught and reported as
`Error importing ...`. -/
def import_file (hash : String → String) (fs : FS) (src : PPath)
    (dest_base : PPath) (mode : String) (checksum_enabled : Bool)
    (ora : IOOracle) : Except FS (FS × Bool × String) :=
  match parse_filename (pname src) with
  | none => .ok (fs, false, "Could not parse date from " ++ pname src)
  | some (month, day) =>
    let month_folder := (monthLookup month).getD ""
    let dest_dir := pdiv (pdiv dest_base month_folder) day
    if !(isDir fs dest_dir) && !ora.mkdirOk then .error fs
    else
      let fs1 := mkdirParents fs dest_dir
      let dest_file := pdiv dest_dir (pname src)
      if pexists fs1 dest_file then
        .ok (fs1, false, "File already exists: " ++ pname src)
      else
        match fileAt fs1 src, ora.transferOk with
        | some content, true =>
          let fs2 := setFile fs1 dest_file content
          let fs3 := if mode = "move" then delFile fs2 src else fs2
          let action := if mode = "move" then "Moved" else "Copied"
          let message :=
            action ++ ": " ++ pname src ++ " -> " ++ month_folder ++ "/" ++ day ++ "/"
          if checksum_enabled then
            if ora.hashOk then
              let hash_value := (calculate_sha256 hash fs3 dest_file).getD ""
              if ora.sidecarOk then
                let fs4 := write_sidecar fs3 dest_file hash_value
                if ora.manifestOk then
                  let fs5 := append_to_manifest fs4 (pdiv dest_base "checksums.txt")
                    dest_file hash_value ora.timestamp
                  .ok (fs5, true, message ++ " [checksum generated]")
                else .ok (fs4, false, "Error importing " ++ pname src ++ ": " ++ ora.errText)
              else .ok (fs3, false, "Error importing " ++ pname src ++ ": " ++ ora.errText)
            else .ok (fs3, false, "Error importing " ++ pname src ++ ": " ++ ora.errText)
          else .ok (fs3, true, message)
        | _, _ => .ok (fs1, false, "Error importing " ++ pname src ++ ": " ++ ora.errText)

/-- The filesystem state a per-file import leaves behind, whether it
returned normally or raised. -/
def outFS : Except FS (FS × Bool × String) → FS
  | .error fs => fs
  | .ok r => r.1

/-- The success flag of a per-file import; a call that raised never
reports success. -/
def succOf : Except FS (FS × Bool × String) → Bool
  | .error _ => false
  | .ok r => r.2.1

/-! ### The batch import (`core.import_files`) -/

/-- `core.import_files`: import a list of files, threading the
filesystem through; `.ok` of (filesystem, `success_count`,
`skip_count`, error list, trace of per-file `(success, message)`
outcomes in order — the loop's view of each `import_file` return; the
progress callback receives each message). The loop has no exception
handler, so an uncaught `OSError` from `import_file` propagates:
`.error` with the filesystem at that point, the remaining files
unprocessed, and no counts, error list or outcomes returned at all. The
oracle is indexed by position in the list. -/
def import_files (hash : String → String) (fs : FS) (files : List PPath)
    (dest_base : PPath) (mode : String) (checksum_enabled : Bool)
    (oras : Nat → IOOracle) :
    Except FS (FS × Nat × Nat × List String × List (Bool × String)) :=
  match files with
  | [] => .ok (fs, 0, 0, [], [])
  | f :: rest =>
    match import_file hash fs f dest_base mode checksum_enabled (oras 0) with
    | .error fsE => .error fsE
    | .ok r1 =>
      match import_files hash r1.1 rest dest_base mode checksum_enabled
        (fun n => oras (n + 1)) with
      | .error fsE => .error fsE
      | .ok rr =>
        .ok (rr.1,
          (if r1.2.1 then 1 else 0) + rr.2.1,
          (if r1.2.1 then 0 else 1) + rr.2.2.1,
          (if !r1.2.1 && !containsSub "already exists".data r1.2.2.data
            then [r1.2.2] else []) ++ rr.2.2.2.1,
          (r1.2.1, r1.2.2) :: rr.2.2.2.2)

/-- The filesystem state a batch run leaves behind, whether it returned
normally or aborted on an uncaught exception. -/
def batchFS : Except FS (FS × Nat × Nat × List String × List (Bool × String)) → FS
  | .error fs => fs
  | .ok r => r.1

/-- The `(success_count, skip_count, errors, trace)` report of a batch
run; `none` when the batch aborted on an uncaught exception and
returned nothing. -/
def batchReport : Except FS (FS × Nat × Nat × List String × List (Bool × String)) →
    Option (Nat × Nat × List String × List (Bool × String))
  | .error _ => none
  | .ok r => some r.2

/-! ### Filesystem lookup lemmas -/

lemma find?_filter_ne {l : List (PPath × String)} {p q : PPath} (h : q ≠ p) :
    (l.filter (fun e => e.1 ≠ p)).find? (fun e => e.1 = q) =
      l.find? (fun e => e.1 = q) := by
  induction l with
  | nil => rfl
  | cons e t ih =>
    rw [List.filter_cons]
    by_cases he : e.1 = p
    · rw [if_neg (by simp [he]), ih,
        List.find?_cons_of_neg _ (by simp; intro hq; exact h (by rw [← hq, he]))]
    · rw [if_pos (by simp [he])]
      by_cases hq : e.1 = q
      · rw [List.find?_cons_of_pos _ (by simp [hq]),
          List.find?_cons_of_pos _ (by simp [hq])]
      · rw [List.find?_cons_of_neg _ (by simp [hq]),
          List.find?_cons_of_neg _ (by simp [hq]), ih]

lemma find?_filter_self {l : List (PPath × String)} {p : PPath} :
    (l.filter (fun e => e.1 ≠ p)).find? (fun e => e.1 = p) = none := by
  apply List.find?_eq_none.mpr
  intro x hx
  have := List.of_mem_filter hx
  simp at this
  simp [this]

lemma fileAt_setFile_same (fs : FS) (p : PPath) (c : String) :
    fileAt (setFile fs p c) p = some c := by
  unfold fileAt setFile
  rw [List.find?_cons_of_pos _ (by simp)]
  rfl

lemma fileAt_setFile_ne (fs : FS) (p : PPath) (c : String) {q : PPath}
    (h : q ≠ p) : fileAt (setFile fs p c) q = fileAt fs q := by
  unfold fileAt setFile
  rw [List.find?_cons_of_neg _ (by simp; intro hpq; exact h hpq.symm)]
  rw [find?_filter_ne h]

lemma fileAt_delFile_ne (fs : FS) (p : PPath) {q : PPath} (h : q ≠ p) :
    fileAt (delFile fs p) q = fileAt fs q := by
  unfold fileAt delFile
  rw [find?_filter_ne h]

lemma fileAt_delFile_same (fs : FS) (p : PPath) :
    fileAt (delFile fs p) p = none := by
  unfold fileAt delFile
  rw [find?_filter_self]
  rfl

lemma fileAt_mkdirParents (fs : FS) (d q : PPath) :
    fileAt (mkdirParents fs d) q = fileAt fs q := rfl

/-! ### Name arithmetic -/

lemma pyStem_append_pySuffix (n : String) : pyStem n ++ pySuffix n = n := by
  unfold pyStem pySuffix
  dsimp only
  rcases h : rfindDot n.data with - | i
  · exact String.append_empty n
  · dsimp only
    by_cases hc : 0 < i ∧ i < n.data.length - 1
    · rw [if_pos hc, if_pos hc]
      show (⟨n.data.take i ++ n.data.drop i⟩ : String) = n
      rw [List.take_append_drop]
    · rw [if_neg hc, if_neg hc]
      exact String.append_empty n

lemma pname_concat (b : Bool) (l : List String) (a : String) :
    pname ⟨b, l ++ [a]⟩ = a := by
  unfold pname
  simp

/-- A usable single path component: what `pathlib` names look like. -/
def validName (s : String) : Prop :=
  '/' ∉ s.data ∧ s ≠ "" ∧ s ≠ "."

/-! ### Concrete witness data -/

/-- A deterministic stand-in digest function for concrete witnesses. -/
def hashW : String → String := fun _ => "abc123"

/-- An oracle under which no I/O operation raises. -/
def oraOk : IOOracle := ⟨true, true, true, true, true, "boom", "ts"⟩

/-- An oracle under which a needed `dest_dir.mkdir` raises `OSError`
while every other operation would work. -/
def oraMkdirFail : IOOracle := ⟨false, true, true, true, true, "boom", "ts"⟩

/-- The constant mkdir-failing oracle stream. -/
def orasMkdirFail : Nat → IOOracle := fun _ => oraMkdirFail

/-- The constant all-OK oracle stream. -/
def orasOk : Nat → IOOracle := fun _ => oraOk

def wSrc : PPath := ⟨true, ["sd", "240315_1430.mp3"]⟩

def wBase : PPath := ⟨true, ["rec"]⟩

def wBad : PPath := ⟨true, ["sd", "nodate.mp3"]⟩

def wBadFS : FS := ⟨[(wBad, "x")], []⟩

def wDupA : PPath := ⟨true, ["a", "240315_1430.mp3"]⟩

def wDupB : PPath := ⟨true, ["b", "240315_1430.mp3"]⟩

def wDupFS : FS := ⟨[(wDupA, "x"), (wDupB, "y")], []⟩

def wFS : FS :=
  ⟨[(⟨true, ["rec", "03-March", "15", "240315_1430.mp3"]⟩, "old"),
    (⟨true, ["sd", "240315_1430.mp3"]⟩, "new")], []⟩

/-! ### Path disjointness facts used by the transfer proofs -/

lemma isSome_false_none {α : Type} {o : Option α} (h : o.isSome = false) :
    o = none := by
  cases o
  · rfl
  · simp at h

lemma pexists_false_fileAt {fs : FS} {p : PPath} (h : pexists fs p = false) :
    fileAt fs p = none := by
  unfold pexists at h
  exact isSome_false_none (Bool.or_eq_false_iff.mp h).1

lemma ne_of_pname {p q : PPath} (h : pname p ≠ pname q) : p ≠ q :=
  fun he => h (by rw [he])

lemma nm_ne_nm_sha (nm : String) : nm ≠ nm ++ ".sha256" := by
  intro he
  have hl := congrArg String.length he
  rw [String.length_append, show ".sha256".length = 7 from rfl] at hl
  omega

lemma sidecar_of_concat (b : Bool) (l : List String) (nm : String) :
    sidecar_path ⟨b, l ++ [nm]⟩ = ⟨b, l ++ [nm ++ ".sha256"]⟩ := by
  unfold sidecar_path
  rw [show pname ⟨b, l ++ [nm]⟩ = nm from pname_concat b l nm]
  show (⟨b, (l ++ [nm]).dropLast ++
    [pyStem nm ++ (pySuffix nm ++ ".sha256")]⟩ : PPath) = _
  rw [List.dropLast_concat, ← String.append_assoc, pyStem_append_pySuffix]

lemma sha_ne_manifest_name (nm : String) : nm ++ ".sha256" ≠ "checksums.txt" := by
  intro he
  have hd := congrArg String.data he
  rw [show (nm ++ ".sha256").data = nm.data ++ ".sha256".data from rfl] at hd
  rw [show "checksums.txt".data = "checks".data ++ "ums.txt".data from rfl] at hd
  obtain ⟨-, habs⟩ := List.append_inj' hd rfl
  exact absurd habs (by decide)

/-- C1: when the planned destination file already exists (and the
`mkdir` that runs just before the existence check does not raise — it
cannot when the destination directory is already present, as it is on
any real filesystem holding the destination file), the per-file import
returns normally with the skip outcome (`False` and the `File already
exists` message) and no file content anywhere changes — in particular
the existing destination file keeps its content; the existence check
sits directly before the copy/move action, which is never reached. -/
theorem import_file_skips_existing (hash : String → String) (fs : FS)
    (src dest_base : PPath) (mode : String) (cs : Bool) (ora : IOOracle)
    (month day : String)
    (hp : parse_filename (pname src) = some (month, day))
    (hmk : isDir fs (pdiv (pdiv dest_base ((monthLookup month).getD "")) day)
        = true ∨ ora.mkdirOk = true)
    (hex : pexists
      (mkdirParents fs (pdiv (pdiv dest_base ((monthLookup month).getD "")) day))
      (pdiv (pdiv (pdiv dest_base ((monthLookup month).getD "")) day) (pname src))
      = true) :
    import_file hash fs src dest_base mode cs ora =
      .ok (mkdirParents fs
            (pdiv (pdiv dest_base ((monthLookup month).getD "")) day),
           false, "File already exists: " ++ pname src) ∧
    (mkdirParents fs
      (pdiv (pdiv dest_base ((monthLookup month).getD "")) day)).files =
      fs.files := by
  unfold import_file
  rw [hp]
  dsimp only
  rw [if_neg (show ¬ ((!(isDir fs (pdiv (pdiv dest_base
      ((monthLookup month).getD "")) day)) && !ora.mkdirOk) = true) from by
    rcases hmk with h | h <;> simp [h])]
  rw [if_pos hex]
  exact ⟨rfl, rfl⟩

/-- Witness for C1 at a concrete input. -/
theorem import_file_skips_existing_witness :
    (parse_filename (pname wSrc) = some ("03", "15") ∧
     (isDir wFS (pdiv (pdiv wBase ((monthLookup "03").getD "")) "15") = true ∨
      oraOk.mkdirOk = true) ∧
     pexists (mkdirParents wFS (pdiv (pdiv wBase ((monthLookup "03").getD "")) "15"))
       (pdiv (pdiv (pdiv wBase ((monthLookup "03").getD "")) "15") (pname wSrc))
       = true) ∧
    (import_file hashW wFS wSrc wBase "copy" true oraOk =
       .ok (mkdirParents wFS (pdiv (pdiv wBase ((monthLookup "03").getD "")) "15"),
            false, "File already exists: " ++ pname wSrc) ∧
     (mkdirParents wFS
       (pdiv (pdiv wBase ((monthLookup "03").getD "")) "15")).files = wFS.files) :=
  ⟨⟨by decide, by decide, by decide⟩,
   import_file_skips_existing hashW wFS wSrc wBase "copy" true oraOk "03" "15"
     (by decide) (by decide) (by decide)⟩

/-- C10: any mode string other than exactly `"move"` behaves as copy:
whatever the call does — skip, transfer, caught or uncaught error — the
source file is never deleted or changed, and on a successful import the
destination holds the same content the source had, with the source
retained. -/
theorem import_file_nonmove_is_copy (hash : String → String) (fs : FS)
    (src dest_base : PPath) (mode : String) (cs : Bool) (ora : IOOracle)
    (hv : validName (pname src)) (hm : mode ≠ "move") :
    fileAt (outFS (import_file hash fs src dest_base mode cs ora)) src =
      fileAt fs src ∧
    (∀ month day, parse_filename (pname src) = some (month, day) →
      succOf (import_file hash fs src dest_base mode cs ora) = true →
      fileAt (outFS (import_file hash fs src dest_base mode cs ora))
        (pdiv (pdiv (pdiv dest_base ((monthLookup month).getD "")) day)
          (pname src)) = fileAt fs src) := by
  set R := import_file hash fs src dest_base mode cs ora with hR
  clear_value R
  unfold import_file at hR
  split at hR
  next heq =>
    refine ⟨by rw [hR]; try rfl, fun month day hp hsucc => ?_⟩
    rw [hp] at heq
    exact Option.noConfusion heq
  next month day heq =>
    dsimp only at hR
    split at hR
    next hraise =>
      refine ⟨by rw [hR]; try rfl, fun m' d' hp' hsucc => ?_⟩
      rw [hR] at hsucc
      exact Bool.noConfusion hsucc
    next hraise =>
      split at hR
      next hex =>
        refine ⟨by rw [hR]; try rfl, fun m' d' hp' hsucc => ?_⟩
        rw [hR] at hsucc
        exact Bool.noConfusion hsucc
      next hex =>
        split at hR
        next content hfa htr =>
          have hex' : pexists (mkdirParents fs
              (pdiv (pdiv dest_base ((monthLookup month).getD "")) day))
              (pdiv (pdiv (pdiv dest_base ((monthLookup month).getD "")) day)
                (pname src)) = false := by
            rwa [Bool.not_eq_true] at hex
          have hnone := pexists_false_fileAt hex'
          have hsd : src ≠ pdiv (pdiv (pdiv dest_base
              ((monthLookup month).getD "")) day) (pname src) := by
            intro he
            rw [← he] at hnone
            rw [hnone] at hfa
            exact Option.noConfusion hfa
          have hdparts : pdiv (pdiv (pdiv dest_base
              ((monthLookup month).getD "")) day) (pname src) =
              ⟨(pdiv (pdiv dest_base ((monthLookup month).getD "")) day).absolute,
               (pdiv (pdiv dest_base ((monthLookup month).getD "")) day).parts ++
                 [pname src]⟩ :=
            pdiv_single _ hv.1 hv.2.1 hv.2.2
          have hsc : sidecar_path (pdiv (pdiv (pdiv dest_base
              ((monthLookup month).getD "")) day) (pname src)) =
              ⟨(pdiv (pdiv dest_base ((monthLookup month).getD "")) day).absolute,
               (pdiv (pdiv dest_base ((monthLookup month).getD "")) day).parts ++
                 [pname src ++ ".sha256"]⟩ := by
            rw [hdparts, sidecar_of_concat]
          have hssc : src ≠ sidecar_path (pdiv (pdiv (pdiv dest_base
              ((monthLookup month).getD "")) day) (pname src)) := by
            apply ne_of_pname
            rw [hsc, pname_concat]
            exact nm_ne_nm_sha (pname src)
          have hdsc : pdiv (pdiv (pdiv dest_base ((monthLookup month).getD ""))
              day) (pname src) ≠ sidecar_path (pdiv (pdiv (pdiv dest_base
              ((monthLookup month).getD "")) day) (pname src)) := by
            apply ne_of_pname
            rw [hsc, pname_concat, hdparts, pname_concat]
            exact nm_ne_nm_sha (pname src)
          have hmfparts : pdiv dest_base "checksums.txt" =
              ⟨dest_base.absolute, dest_base.parts ++ ["checksums.txt"]⟩ :=
            pdiv_single _ (by decide) (by decide) (by decide)
          have hsmf : src ≠ pdiv dest_base "checksums.txt" := by
            apply ne_of_pname
            rw [hmfparts, pname_concat]
            intro he
            rw [he] at heq
            rw [show parse_filename "checksums.txt" = none from by decide] at heq
            exact Option.noConfusion heq
          have hdmf : pdiv (pdiv (pdiv dest_base ((monthLookup month).getD ""))
              day) (pname src) ≠ pdiv dest_base "checksums.txt" := by
            apply ne_of_pname
            rw [hmfparts, pname_concat, hdparts, pname_concat]
            intro he
            rw [he] at heq
            rw [show parse_filename "checksums.txt" = none from by decide] at heq
            exact Option.noConfusion heq
          have hscmf : sidecar_path (pdiv (pdiv (pdiv dest_base
              ((monthLookup month).getD "")) day) (pname src)) ≠
              pdiv dest_base "checksums.txt" := by
            apply ne_of_pname
            rw [hsc, pname_concat, hmfparts, pname_concat]
            exact sha_ne_manifest_name (pname src)
          split at hR
          next hcs =>
            split at hR
            next hhk =>
              split at hR
              next hsk =>
                split at hR
                next hmfk =>
                  constructor
                  · rw [hR]
                    dsimp only [outFS]
                    unfold append_to_manifest
                    dsimp only
                    rw [fileAt_setFile_ne _ _ _ hsmf]
                    unfold write_sidecar
                    rw [fileAt_setFile_ne _ _ _ hssc]
                    rw [fileAt_setFile_ne _ _ _ hsd]
                    rfl
                  · intro m' d' hp' hsucc
                    rw [heq] at hp'
                    obtain ⟨rfl, rfl⟩ := Prod.mk.injEq .. ▸ Option.some.inj hp'
                    rw [hR]
                    dsimp only [outFS]
                    unfold append_to_manifest
                    dsimp only
                    rw [fileAt_setFile_ne _ _ _ hdmf]
                    unfold write_sidecar
                    rw [fileAt_setFile_ne _ _ _ hdsc]
                    rw [fileAt_setFile_same]
                    exact hfa.symm
                next hmfk =>
                  constructor
                  · rw [hR]
                    dsimp only [outFS]
                    unfold write_sidecar
                    rw [fileAt_setFile_ne _ _ _ hssc]
                    rw [fileAt_setFile_ne _ _ _ hsd]
                    rfl
                  · intro m' d' hp' hsucc
                    rw [hR] at hsucc
                    exact Bool.noConfusion hsucc
              next hsk =>
                constructor
                · rw [hR]
                  dsimp only [outFS]
                  rw [fileAt_setFile_ne _ _ _ hsd]
                  rfl
                · intro m' d' hp' hsucc
                  rw [hR] at hsucc
                  exact Bool.noConfusion hsucc
            next hhk =>
              constructor
              · rw [hR]
                dsimp only [outFS]
                rw [fileAt_setFile_ne _ _ _ hsd]
                rfl
              · intro m' d' hp' hsucc
                rw [hR] at hsucc
                exact Bool.noConfusion hsucc
          next hcs =>
            constructor
            · rw [hR]
              dsimp only [outFS]
              rw [fileAt_setFile_ne _ _ _ hsd]
              rfl
            · intro m' d' hp' hsucc
              rw [heq] at hp'
              obtain ⟨rfl, rfl⟩ := Prod.mk.injEq .. ▸ Option.some.inj hp'
              rw [hR]
              dsimp only [outFS]
              rw [fileAt_setFile_same]
              exact hfa.symm
        next h1 h2 =>
          refine ⟨by rw [hR]; try rfl, fun m' d' hp' hsucc => ?_⟩
          rw [hR] at hsucc
          exact Bool.noConfusion hsucc

def wFSsrc : FS := ⟨[(wSrc, "data")], []⟩

/-- Witness for C10 at a concrete input with the arbitrary mode string
`"copyy"`. -/
theorem import_file_nonmove_is_copy_witness :
    ('/' ∉ (pname wSrc).data ∧ pname wSrc ≠ "" ∧ pname wSrc ≠ "." ∧
     "copyy" ≠ "move") ∧
    (fileAt (outFS (import_file hashW wFSsrc wSrc wBase "copyy" true oraOk))
       wSrc = fileAt wFSsrc wSrc ∧
     (∀ month day, parse_filename (pname wSrc) = some (month, day) →
       succOf (import_file hashW wFSsrc wSrc wBase "copyy" true oraOk) = true →
       fileAt (outFS (import_file hashW wFSsrc wSrc wBase "copyy" true oraOk))
         (pdiv (pdiv (pdiv wBase ((monthLookup month).getD "")) day)
           (pname wSrc)) = fileAt wFSsrc wSrc)) :=
  ⟨⟨by decide, by decide, by decide, by decide⟩,
   import_file_nonmove_is_copy hashW wFSsrc wSrc wBase "copyy" true oraOk
     ⟨by decide, by decide, by decide⟩ (by decide)⟩

/-- C8: a checksum record is never written before the transfer has
succeeded: whenever the per-file import changes any file content at all,
the filename parsed, the source was readable, the copy/move raised no
error, and the destination file holds the transferred content in the
result — the checksum block (sidecar write, manifest append) is reached
only on this success path, after the transfer action completed. -/
theorem checksum_record_after_transfer (hash : String → String) (fs : FS)
    (src dest_base : PPath) (mode : String) (cs : Bool) (ora : IOOracle)
    (hv : validName (pname src)) (q : PPath)
    (hq : fileAt (outFS (import_file hash fs src dest_base mode cs ora)) q ≠
      fileAt fs q) :
    ∃ month day content,
      parse_filename (pname src) = some (month, day) ∧
      fileAt fs src = some content ∧
      ora.transferOk = true ∧
      fileAt (outFS (import_file hash fs src dest_base mode cs ora))
        (pdiv (pdiv (pdiv dest_base ((monthLookup month).getD "")) day)
          (pname src)) = some content := by
  set R := import_file hash fs src dest_base mode cs ora with hR
  clear_value R
  unfold import_file at hR
  split at hR
  next heq =>
    rw [hR] at hq
    exact absurd rfl hq
  next month day heq =>
    dsimp only at hR
    split at hR
    next hraise =>
      rw [hR] at hq
      exact absurd rfl hq
    next hraise =>
      split at hR
      next hex =>
        rw [hR] at hq
        exact absurd rfl hq
      next hex =>
        split at hR
        next content hfa htr =>
          have hex' : pexists (mkdirParents fs
              (pdiv (pdiv dest_base ((monthLookup month).getD "")) day))
              (pdiv (pdiv (pdiv dest_base ((monthLookup month).getD "")) day)
                (pname src)) = false := by
            rwa [Bool.not_eq_true] at hex
          have hnone := pexists_false_fileAt hex'
          have hsd : src ≠ pdiv (pdiv (pdiv dest_base
              ((monthLookup month).getD "")) day) (pname src) := by
            intro he
            rw [← he] at hnone
            rw [hnone] at hfa
            exact Option.noConfusion hfa
          have hdparts : pdiv (pdiv (pdiv dest_base
              ((monthLookup month).getD "")) day) (pname src) =
              ⟨(pdiv (pdiv dest_base ((monthLookup month).getD "")) day).absolute,
               (pdiv (pdiv dest_base ((monthLookup month).getD "")) day).parts ++
                 [pname src]⟩ :=
            pdiv_single _ hv.1 hv.2.1 hv.2.2
          have hsc : sidecar_path (pdiv (pdiv (pdiv dest_base
              ((monthLookup month).getD "")) day) (pname src)) =
              ⟨(pdiv (pdiv dest_base ((monthLookup month).getD "")) day).absolute,
               (pdiv (pdiv dest_base ((monthLookup month).getD "")) day).parts ++
                 [pname src ++ ".sha256"]⟩ := by
            rw [hdparts, sidecar_of_concat]
          have hdsc : pdiv (pdiv (pdiv dest_base ((monthLookup month).getD ""))
              day) (pname src) ≠ sidecar_path (pdiv (pdiv (pdiv dest_base
              ((monthLookup month).getD "")) day) (pname src)) := by
            apply ne_of_pname
            rw [hsc, pname_concat, hdparts, pname_concat]
            exact nm_ne_nm_sha (pname src)
          have hmfparts : pdiv dest_base "checksums.txt" =
              ⟨dest_base.absolute, dest_base.parts ++ ["checksums.txt"]⟩ :=
            pdiv_single _ (by decide) (by decide) (by decide)
          have hdmf : pdiv (pdiv (pdiv dest_base ((monthLookup month).getD ""))
              day) (pname src) ≠ pdiv dest_base "checksums.txt" := by
            apply ne_of_pname
            rw [hmfparts, pname_concat, hdparts, pname_concat]
            intro he
            rw [he] at heq
            rw [show parse_filename "checksums.txt" = none from by decide] at heq
            exact Option.noConfusion heq
          refine ⟨month, day, content, heq, hfa, htr, ?_⟩
          have e1 : ∀ (fsx : FS) (c : String),
              fileAt (setFile fsx (pdiv dest_base "checksums.txt") c)
                (pdiv (pdiv (pdiv dest_base ((monthLookup month).getD "")) day)
                  (pname src)) =
              fileAt fsx (pdiv (pdiv (pdiv dest_base
                ((monthLookup month).getD "")) day) (pname src)) :=
            fun fsx c => fileAt_setFile_ne fsx _ c hdmf
          have e2 : ∀ (fsx : FS) (c : String),
              fileAt (setFile fsx (sidecar_path (pdiv (pdiv (pdiv dest_base
                  ((monthLookup month).getD "")) day) (pname src))) c)
                (pdiv (pdiv (pdiv dest_base ((monthLookup month).getD "")) day)
                  (pname src)) =
              fileAt fsx (pdiv (pdiv (pdiv dest_base
                ((monthLookup month).getD "")) day) (pname src)) :=
            fun fsx c => fileAt_setFile_ne fsx _ c hdsc
          have e3 : ∀ fsx : FS,
              fileAt (delFile fsx src)
                (pdiv (pdiv (pdiv dest_base ((monthLookup month).getD "")) day)
                  (pname src)) =
              fileAt fsx (pdiv (pdiv (pdiv dest_base
                ((monthLookup month).getD "")) day) (pname src)) :=
            fun fsx => fileAt_delFile_ne fsx src (Ne.symm hsd)
          repeat' split at hR
          all_goals
            rw [hR]
            dsimp only [outFS]
            simp only [append_to_manifest, write_sidecar, e1, e2, e3,
              fileAt_setFile_same]
        next h1 h2 =>
          rw [hR] at hq
          exact absurd rfl hq

def wDest : PPath := ⟨true, ["rec", "03-March", "15", "240315_1430.mp3"]⟩

/-- Witness for C8 at a concrete input. -/
theorem checksum_record_after_transfer_witness :
    (('/' ∉ (pname wSrc).data ∧ pname wSrc ≠ "" ∧ pname wSrc ≠ ".") ∧
     fileAt (outFS (import_file hashW wFSsrc wSrc wBase "copy" true oraOk))
       wDest ≠ fileAt wFSsrc wDest) ∧
    (∃ month day content,
      parse_filename (pname wSrc) = some (month, day) ∧
      fileAt wFSsrc wSrc = some content ∧
      oraOk.transferOk = true ∧
      fileAt (outFS (import_file hashW wFSsrc wSrc wBase "copy" true oraOk))
        (pdiv (pdiv (pdiv wBase ((monthLookup month).getD "")) day)
          (pname wSrc)) = some content) :=
  ⟨⟨⟨by decide, by decide, by decide⟩, by decide⟩,
   checksum_record_after_transfer hashW wFSsrc wSrc wBase "copy" true oraOk
     ⟨by decide, by decide, by decide⟩ wDest (by decide)⟩

/-- C9: in every batch that runs to completion, the returned
`success_count + skip_count` equals the number of input files: each
file contributes to exactly one of the two counters, whatever its
outcome (unparseable, already-exists, or caught I/O failure all land in
`skip_count`); the counts exist only when the loop completes without an
uncaught exception. -/
theorem import_files_counts (hash : String → String) (fs : FS)
    (files : List PPath) (dest_base : PPath) (mode : String) (cs : Bool)
    (oras : Nat → IOOracle) (fsr : FS) (s k : Nat) (errs : List String)
    (trace : List (Bool × String))
    (hok : import_files hash fs files dest_base mode cs oras =
      .ok (fsr, s, k, errs, trace)) :
    s + k = files.length := by
  induction files generalizing fs oras fsr s k errs trace with
  | nil =>
    unfold import_files at hok
    simp only [Except.ok.injEq, Prod.mk.injEq] at hok
    obtain ⟨-, hs, hk, -, -⟩ := hok
    rw [← hs, ← hk]
    rfl
  | cons f rest ih =>
    unfold import_files at hok
    split at hok
    next fsE heq1 => exact Except.noConfusion hok
    next r1 heq1 =>
      split at hok
      next fsE heq2 => exact Except.noConfusion hok
      next rr heq2 =>
        simp only [Except.ok.injEq, Prod.mk.injEq] at hok
        obtain ⟨-, hs, hk, -, -⟩ := hok
        have hrest := ih r1.1 (fun n => oras (n + 1)) rr.1 rr.2.1 rr.2.2.1
          rr.2.2.2.1 rr.2.2.2.2 heq2
        rw [List.length_cons]
        cases hb : r1.2.1 <;> rw [hb] at hs hk <;> simp at hs hk <;> omega

/-- Witness for C9 at a concrete input (a completed one-file batch). -/
theorem import_files_counts_witness :
    import_files hashW wBadFS [wBad] wBase "copy" false orasOk =
      .ok (wBadFS, 0, 1, ["Could not parse date from nodate.mp3"],
        [(false, "Could not parse date from nodate.mp3")]) ∧
    (0 : Nat) + 1 = ([wBad] : List PPath).length :=
  ⟨by decide,
   import_files_counts hashW wBadFS [wBad] wBase "copy" false orasOk wBadFS
     0 1 ["Could not parse date from nodate.mp3"]
     [(false, "Could not parse date from nodate.mp3")] (by decide)⟩

/-- C5 (amended): whenever the batch returns (it aborts instead only on
an uncaught `OSError` from the `dest_dir.mkdir` that sits outside the
per-file `try` block — see the counterexample), the trace covers every
input file, and the error list is exactly the messages of the
non-success outcomes whose message does not contain the substring
`"already exists"` — this excludes already-exists skips but includes
unparseable-filename skips alongside genuine I/O failures. -/
theorem import_files_errors_amended (hash : String → String) (fs : FS)
    (files : List PPath) (dest_base : PPath) (mode : String) (cs : Bool)
    (oras : Nat → IOOracle) (fsr : FS) (s k : Nat) (errs : List String)
    (trace : List (Bool × String))
    (hok : import_files hash fs files dest_base mode cs oras =
      .ok (fsr, s, k, errs, trace)) :
    trace.length = files.length ∧
    errs = (trace.filter
        (fun r => !r.1 && !containsSub "already exists".data r.2.data)).map
      Prod.snd := by
  induction files generalizing fs oras fsr s k errs trace with
  | nil =>
    unfold import_files at hok
    simp only [Except.ok.injEq, Prod.mk.injEq] at hok
    obtain ⟨-, -, -, herrs, htr⟩ := hok
    rw [← herrs, ← htr]
    exact ⟨rfl, rfl⟩
  | cons f rest ih =>
    unfold import_files at hok
    split at hok
    next fsE heq1 => exact Except.noConfusion hok
    next r1 heq1 =>
      split at hok
      next fsE heq2 => exact Except.noConfusion hok
      next rr heq2 =>
        simp only [Except.ok.injEq, Prod.mk.injEq] at hok
        obtain ⟨-, -, -, herrs, htr⟩ := hok
        obtain ⟨ih1, ih2⟩ := ih r1.1 (fun n => oras (n + 1)) rr.1 rr.2.1
          rr.2.2.1 rr.2.2.2.1 rr.2.2.2.2 heq2
        constructor
        · rw [← htr, List.length_cons, List.length_cons, ih1]
        · rw [← htr, ← herrs, List.filter_cons]
          cases hb : (!r1.2.1 &&
              !containsSub "already exists".data r1.2.2.data)
          · rw [if_neg (by simp [hb])]
            simp [hb, ih2]
          · rw [if_pos (by simp [hb])]
            simp [hb, ih2]

/-- Witness for C5's amended statement at a concrete input. -/
theorem import_files_errors_amended_witness :
    import_files hashW wBadFS [wBad, wBad] wBase "copy" false orasOk =
      .ok (wBadFS, 0, 2,
        ["Could not parse date from nodate.mp3",
         "Could not parse date from nodate.mp3"],
        [(false, "Could not parse date from nodate.mp3"),
         (false, "Could not parse date from nodate.mp3")]) ∧
    (([(false, "Could not parse date from nodate.mp3"),
       (false, "Could not parse date from nodate.mp3")] :
        List (Bool × String)).length = ([wBad, wBad] : List PPath).length ∧
     ["Could not parse date from nodate.mp3",
      "Could not parse date from nodate.mp3"] =
       (([(false, "Could not parse date from nodate.mp3"),
          (false, "Could not parse date from nodate.mp3")] :
           List (Bool × String)).filter
         (fun r => !r.1 && !containsSub "already exists".data r.2.data)).map
         Prod.snd) :=
  ⟨by decide,
   import_files_errors_amended hashW wBadFS [wBad, wBad] wBase "copy" false
     orasOk wBadFS 0 2
     ["Could not parse date from nodate.mp3",
      "Could not parse date from nodate.mp3"]
     [(false, "Could not parse date from nodate.mp3"),
      (false, "Could not parse date from nodate.mp3")] (by decide)⟩

/-- Counterexample for C5: first, a batch with a single
unparseable-filename file — an outcome that is a skip, not a `Failed`
I/O outcome (the per-file import returns normally, the filesystem is
untouched, no transfer is attempted) — still lands in the error list,
so the error list does not contain messages only for `Failed` outcomes.
Second, the batch can halt early: when the first file's
`dest_dir.mkdir` raises `OSError` (it sits outside the per-file `try`
block), the whole two-file batch aborts with no counts, no error list
and no outcome for either file — so the batch does not process all
files on a single file's failure. -/
theorem import_files_errors_cex :
    batchReport (import_files hashW wBadFS [wBad] wBase "copy" false
        orasOk) =
      some (0, 1, ["Could not parse date from nodate.mp3"],
        [(false, "Could not parse date from nodate.mp3")]) ∧
    import_file hashW wBadFS wBad wBase "copy" false oraOk =
      .ok (wBadFS, false, "Could not parse date from nodate.mp3") ∧
    batchReport (import_files hashW wDupFS [wDupA, wDupB] wBase "copy" false
        orasMkdirFail) = none :=
  ⟨by decide, by decide, by decide⟩

/-! ### Folder discovery (`discover_folders`) -/

/-- `EXCLUDED_FOLDERS = {"RADIO01"}`. -/
def EXCLUDED_FOLDERS : List String := ["RADIO01"]

/-- Code-point lexicographic order on strings (Python string
comparison). -/
def lexLe : List Char → List Char → Bool
  | [], _ => true
  | _ :: _, [] => false
  | a :: as, b :: bs =>
    if a.toNat < b.toNat then true
    else if b.toNat < a.toNat then false
    else lexLe as bs

/-- Insert into a sorted list (stable). -/
def insortStr (a : String) : List String → List String
  | [] => [a]
  | b :: t => if lexLe a.data b.data then a :: b :: t else b :: insortStr a t

/-- `sorted(...)` on strings. -/
def sortStrs : List String → List String
  | [] => []
  | a :: t => insortStr a (sortStrs t)

/-- `sorted(source_path.iterdir())`: the names of the entries directly
under `p`, lexicographically sorted. -/
def childNames (fs : FS) (p : PPath) : List String :=
  sortStrs
    (((fs.dirs ++ fs.files.map Prod.fst).filterMap
      (fun q =>
        if q.absolute = p.absolute ∧ q.parts.length = p.parts.length + 1 ∧
            p.parts.isPrefixOf q.parts
        then q.parts.getLast? else none)).dedup)

/-- `core.discover_folders`: all recording folders under the source
root, excluding `RADIO01`; the empty list when the source root does not
exist. -/
def discover_folders (fs : FS) (source_path : PPath) : List PPath :=
  if pexists fs source_path = false then []
  else
    ((childNames fs source_path).filter
        (fun n =>
          isDir fs ⟨source_path.absolute, source_path.parts ++ [n]⟩ &&
          !(EXCLUDED_FOLDERS.contains n))).map
      (fun n => (⟨source_path.absolute, source_path.parts ++ [n]⟩ : PPath))

/-- `dvr-import.py`'s `discover_folders`: on a missing source root it
prints an error and terminates the process (`sys.exit(1)`), modelled as
`Except.error`; otherwise it lists folders like the library version. -/
def discover_folders_cli (fs : FS) (source_path : PPath) :
    Except String (List PPath) :=
  if pexists fs source_path = false then
    .error ("Error: Source path not found: " ++ pathStr source_path)
  else
    .ok (((childNames fs source_path).filter
        (fun n =>
          isDir fs ⟨source_path.absolute, source_path.parts ++ [n]⟩ &&
          !(EXCLUDED_FOLDERS.contains n))).map
      (fun n => (⟨source_path.absolute, source_path.parts ++ [n]⟩ : PPath)))

/-- Counterexample for C4: in the library core (`core.py`), a missing
source root and an existing-but-empty source root give the identical
result `[]` — there is no caller-visible `SourceNotFound` condition
distinct from the valid empty state. -/
theorem discover_folders_missing_cex :
    pexists (⟨[], []⟩ : FS) ⟨true, ["media", "u", "SD"]⟩ = false ∧
    discover_folders ⟨[], []⟩ ⟨true, ["media", "u", "SD"]⟩ = [] ∧
    pexists (⟨[], [⟨true, ["media", "u", "SD"]⟩]⟩ : FS)
      ⟨true, ["media", "u", "SD"]⟩ = true ∧
    discover_folders ⟨[], [⟨true, ["media", "u", "SD"]⟩]⟩
      ⟨true, ["media", "u", "SD"]⟩ = [] :=
  ⟨by decide, by decide, by decide, by decide⟩

/-- C4 (amended): only the CLI script surfaces a missing source root as
a failure — `dvr-import.py`'s `discover_folders` terminates with an
error exactly when the source root does not exist — while the library
core's `discover_folders` returns the empty list in that case,
indistinguishable from the valid zero-folders state. -/
theorem discover_folders_amended (fs : FS) (p : PPath) :
    (pexists fs p = false → discover_folders fs p = []) ∧
    ((∃ e, discover_folders_cli fs p = .error e) ↔ pexists fs p = false) ∧
    (pexists fs p = false → discover_folders_cli fs p =
      .error ("Error: Source path not found: " ++ pathStr p)) := by
  unfold discover_folders discover_folders_cli
  by_cases h : pexists fs p = false <;> simp [h]

/-- Witness for C4's amended statement at a concrete input. -/
theorem discover_folders_amended_witness :
    pexists (⟨[], []⟩ : FS) ⟨true, ["media"]⟩ = false ∧
    discover_folders_cli ⟨[], []⟩ ⟨true, ["media"]⟩ =
      .error ("Error: Source path not found: " ++
        pathStr ⟨true, ["media"]⟩) :=
  ⟨by decide,
   (discover_folders_amended ⟨[], []⟩ ⟨true, ["media"]⟩).2.2 (by decide)⟩

/-! ### Digest well-formedness and sidecar parsing lemmas -/

/-- What an SHA-256 hex digest looks like, as far as the sidecar format
is concerned: nonempty and free of whitespace. -/
def goodDigest (s : String) : Prop :=
  s.data ≠ [] ∧ ∀ c ∈ s.data, c.isWhitespace = false

lemma pyStrip_marker {h r : List Char} (hne : h ≠ [])
    (hw : ∀ c ∈ h, c.isWhitespace = false) :
    ∃ t, pyStrip (h ++ ' ' :: '*' :: r) = h ++ ' ' :: '*' :: t := by
  unfold pyStrip
  have h1 : (h ++ ' ' :: '*' :: r).dropWhile Char.isWhitespace =
      h ++ ' ' :: '*' :: r := by
    cases h with
    | nil => exact absurd rfl hne
    | cons c cs =>
      rw [List.cons_append, List.dropWhile_cons,
        if_neg (by simp [hw c (List.mem_cons_self c cs)])]
  rw [h1]
  rw [show (h ++ ' ' :: '*' :: r).reverse =
      (r.reverse ++ ['*', ' ']) ++ h.reverse from by simp]
  have h2 : (r.reverse ++ ['*', ' ']).dropWhile Char.isWhitespace =
      r.reverse.dropWhile Char.isWhitespace ++ ['*', ' '] := by
    rw [List.dropWhile_append]
    by_cases hX : (r.reverse.dropWhile Char.isWhitespace).isEmpty
    · rw [if_pos hX]
      rw [List.isEmpty_iff] at hX
      rw [hX]
      rfl
    · rw [if_neg hX]
  rw [List.dropWhile_append, h2]
  rw [if_neg (by simp)]
  refine ⟨(r.reverse.dropWhile Char.isWhitespace).reverse, ?_⟩
  simp

lemma takeBefore_marker {h t : List Char} (hw : ∀ c ∈ h, c ≠ ' ') :
    takeBefore [' ', '*'] (h ++ ' ' :: '*' :: t) = h := by
  induction h with
  | nil =>
    rw [List.nil_append]
    unfold takeBefore
    rw [if_pos (by simp [List.isPrefixOf])]
  | cons c cs ih =>
    rw [List.cons_append]
    unfold takeBefore
    rw [if_neg (by
      simp [List.isPrefixOf]
      intro he
      exact absurd he.symm (hw c (List.mem_cons_self c cs)))]
    rw [ih (fun x hx => hw x (List.mem_cons_of_mem c hx))]

lemma containsSub_marker (h t : List Char) :
    containsSub [' ', '*'] (h ++ ' ' :: '*' :: t) = true := by
  induction h with
  | nil =>
    rw [List.nil_append]
    unfold containsSub
    simp [List.isPrefixOf]
  | cons c cs ih =>
    rw [List.cons_append]
    unfold containsSub
    simp [ih]

lemma roundtrip_final (hash : String → String) (fs3 fsOrig : FS)
    (dest mf : PPath) (ts : String) (content : String)
    (hdest : fileAt fs3 dest = some content)
    (hmf3 : fileAt fs3 mf = fileAt fsOrig mf)
    (hdsc : dest ≠ sidecar_path dest)
    (hdmf : dest ≠ mf)
    (hscmf : sidecar_path dest ≠ mf)
    (hg : goodDigest (hash content)) :
    calculate_sha256 hash
      (append_to_manifest (write_sidecar fs3 dest
        ((calculate_sha256 hash fs3 dest).getD "")) mf dest
        ((calculate_sha256 hash fs3 dest).getD "") ts) dest =
      some (hash content) ∧
    fileAt (append_to_manifest (write_sidecar fs3 dest
        ((calculate_sha256 hash fs3 dest).getD "")) mf dest
        ((calculate_sha256 hash fs3 dest).getD "") ts)
      (sidecar_path dest) =
      some (hash content ++ " *" ++ pname dest ++ "\n") ∧
    fileAt (append_to_manifest (write_sidecar fs3 dest
        ((calculate_sha256 hash fs3 dest).getD "")) mf dest
        ((calculate_sha256 hash fs3 dest).getD "") ts) mf =
      some ((fileAt fsOrig mf).getD "" ++
        (hash content ++ "  " ++ pathStr (relative_to dest (parentDir mf)) ++
          "  # imported " ++ ts ++ "\n")) ∧
    verify_sidecar hash
      (append_to_manifest (write_sidecar fs3 dest
        ((calculate_sha256 hash fs3 dest).getD "")) mf dest
        ((calculate_sha256 hash fs3 dest).getD "") ts) dest =
      .ok (some true) := by
  have hhv : (calculate_sha256 hash fs3 dest).getD "" = hash content := by
    unfold calculate_sha256
    rw [hdest]
    rfl
  rw [hhv]
  unfold append_to_manifest write_sidecar
  dsimp only
  have hold : fileAt (setFile fs3 (sidecar_path dest)
      (hash content ++ " *" ++ pname dest ++ "\n")) mf = fileAt fsOrig mf := by
    rw [fileAt_setFile_ne _ _ _ (Ne.symm hscmf), hmf3]
  rw [hold]
  have hdlook : fileAt (setFile (setFile fs3 (sidecar_path dest)
      (hash content ++ " *" ++ pname dest ++ "\n")) mf
      ((fileAt fsOrig mf).getD "" ++
        (hash content ++ "  " ++ pathStr (relative_to dest (parentDir mf)) ++
          "  # imported " ++ ts ++ "\n"))) dest = some content := by
    rw [fileAt_setFile_ne _ _ _ hdmf, fileAt_setFile_ne _ _ _ hdsc, hdest]
  have hsclook : fileAt (setFile (setFile fs3 (sidecar_path dest)
      (hash content ++ " *" ++ pname dest ++ "\n")) mf
      ((fileAt fsOrig mf).getD "" ++
        (hash content ++ "  " ++ pathStr (relative_to dest (parentDir mf)) ++
          "  # imported " ++ ts ++ "\n"))) (sidecar_path dest) =
      some (hash content ++ " *" ++ pname dest ++ "\n") := by
    rw [fileAt_setFile_ne _ _ _ hscmf, fileAt_setFile_same]
  refine ⟨?_, hsclook, by rw [fileAt_setFile_same], ?_⟩
  · unfold calculate_sha256
    rw [hdlook]
    rfl
  · unfold verify_sidecar
    rw [hsclook]
    dsimp only
    have hdata : (hash content ++ " *" ++ pname dest ++ "\n").data =
        (hash content).data ++ ' ' :: '*' :: ((pname dest).data ++ ['\n']) := by
      show (((hash content).data ++ [' ', '*']) ++ (pname dest).data) ++
          ['\n'] = _
      simp
    rw [hdata]
    obtain ⟨t, hstrip⟩ := pyStrip_marker hg.1 hg.2
    rw [hstrip]
    rw [containsSub_marker]
    rw [if_pos rfl]
    rw [takeBefore_marker (fun c hc heq => by
      have := hg.2 c hc
      rw [heq] at this
      exact absurd this (by decide))]
    dsimp only
    unfold verify_checksum calculate_sha256
    rw [hdlook]
    dsimp only [Option.map]
    have : lowerStr (hash content) = lowerStr ⟨(hash content).data⟩ := rfl
    simp [this]

/-- C7: for every file imported with checksums enabled, recomputing the
digest of the destination file equals the digest recorded in the sidecar
and in the appended manifest line, and verifying the file against its
sidecar returns a match (the digests are compared case-insensitively). -/
theorem checksum_roundtrip (hash : String → String) (fs : FS)
    (src dest_base : PPath) (mode : String) (ora : IOOracle)
    (month day : String)
    (hv : validName (pname src))
    (hg : ∀ c, goodDigest (hash c))
    (hp : parse_filename (pname src) = some (month, day))
    (hsucc : succOf (import_file hash fs src dest_base mode true ora) = true) :
    ∃ content,
      fileAt fs src = some content ∧
      calculate_sha256 hash
        (outFS (import_file hash fs src dest_base mode true ora))
        (pdiv (pdiv (pdiv dest_base ((monthLookup month).getD "")) day)
          (pname src)) = some (hash content) ∧
      fileAt (outFS (import_file hash fs src dest_base mode true ora))
        (sidecar_path (pdiv (pdiv (pdiv dest_base
          ((monthLookup month).getD "")) day) (pname src))) =
        some (hash content ++ " *" ++ pname src ++ "\n") ∧
      fileAt (outFS (import_file hash fs src dest_base mode true ora))
        (pdiv dest_base "checksums.txt") =
        some ((fileAt fs (pdiv dest_base "checksums.txt")).getD "" ++
          (hash content ++ "  " ++
            pathStr (relative_to
              (pdiv (pdiv (pdiv dest_base ((monthLookup month).getD "")) day)
                (pname src))
              (parentDir (pdiv dest_base "checksums.txt"))) ++
            "  # imported " ++ ora.timestamp ++ "\n")) ∧
      verify_sidecar hash
        (outFS (import_file hash fs src dest_base mode true ora))
        (pdiv (pdiv (pdiv dest_base ((monthLookup month).getD "")) day)
          (pname src)) = .ok (some true) := by
  set R := import_file hash fs src dest_base mode true ora with hR
  clear_value R
  unfold import_file at hR
  rw [hp] at hR
  dsimp only at hR
  split at hR
  next hraise =>
    rw [hR] at hsucc
    exact Bool.noConfusion hsucc
  next hraise =>
    split at hR
    next hex =>
      rw [hR] at hsucc
      exact Bool.noConfusion hsucc
    next hex =>
      split at hR
      next content hfa htr =>
        have hex' : pexists (mkdirParents fs
            (pdiv (pdiv dest_base ((monthLookup month).getD "")) day))
            (pdiv (pdiv (pdiv dest_base ((monthLookup month).getD "")) day)
              (pname src)) = false := by
          rwa [Bool.not_eq_true] at hex
        have hnone := pexists_false_fileAt hex'
        have hsd : src ≠ pdiv (pdiv (pdiv dest_base
            ((monthLookup month).getD "")) day) (pname src) := by
          intro he
          rw [← he] at hnone
          rw [hnone] at hfa
          exact Option.noConfusion hfa
        have hdparts : pdiv (pdiv (pdiv dest_base
            ((monthLookup month).getD "")) day) (pname src) =
            ⟨(pdiv (pdiv dest_base ((monthLookup month).getD "")) day).absolute,
             (pdiv (pdiv dest_base ((monthLookup month).getD "")) day).parts ++
               [pname src]⟩ :=
          pdiv_single _ hv.1 hv.2.1 hv.2.2
        have hnm : pname (pdiv (pdiv (pdiv dest_base
            ((monthLookup month).getD "")) day) (pname src)) = pname src := by
          rw [hdparts, pname_concat]
        have hsc : sidecar_path (pdiv (pdiv (pdiv dest_base
            ((monthLookup month).getD "")) day) (pname src)) =
            ⟨(pdiv (pdiv dest_base ((monthLookup month).getD "")) day).absolute,
             (pdiv (pdiv dest_base ((monthLookup month).getD "")) day).parts ++
               [pname src ++ ".sha256"]⟩ := by
          rw [hdparts, sidecar_of_concat]
        have hdsc : pdiv (pdiv (pdiv dest_base ((monthLookup month).getD ""))
            day) (pname src) ≠ sidecar_path (pdiv (pdiv (pdiv dest_base
            ((monthLookup month).getD "")) day) (pname src)) := by
          apply ne_of_pname
          rw [hsc, pname_concat, hdparts, pname_concat]
          exact nm_ne_nm_sha (pname src)
        have hmfparts : pdiv dest_base "checksums.txt" =
            ⟨dest_base.absolute, dest_base.parts ++ ["checksums.txt"]⟩ :=
          pdiv_single _ (by decide) (by decide) (by decide)
        have hsmf : src ≠ pdiv dest_base "checksums.txt" := by
          apply ne_of_pname
          rw [hmfparts, pname_concat]
          intro he
          rw [he] at hp
          rw [show parse_filename "checksums.txt" = none from by decide] at hp
          exact Option.noConfusion hp
        have hdmf : pdiv (pdiv (pdiv dest_base ((monthLookup month).getD ""))
            day) (pname src) ≠ pdiv dest_base "checksums.txt" := by
          apply ne_of_pname
          rw [hmfparts, pname_concat, hdparts, pname_concat]
          intro he
          rw [he] at hp
          rw [show parse_filename "checksums.txt" = none from by decide] at hp
          exact Option.noConfusion hp
        have hscmf : sidecar_path (pdiv (pdiv (pdiv dest_base
            ((monthLookup month).getD "")) day) (pname src)) ≠
            pdiv dest_base "checksums.txt" := by
          apply ne_of_pname
          rw [hsc, pname_concat, hmfparts, pname_concat]
          exact sha_ne_manifest_name (pname src)
        rcases Decidable.em (mode = "move") with hmv | hmv
        · have hcs : ((true : Bool) = true) := rfl
          simp only [if_pos hmv, if_pos hcs] at hR
          repeat' split at hR
          all_goals rw [hR] at hsucc
          any_goals exact Bool.noConfusion hsucc
          all_goals try (rename_i hfalse; exact absurd trivial hfalse)
          have hdest : fileAt (delFile (setFile (mkdirParents fs
              (pdiv (pdiv dest_base ((monthLookup month).getD "")) day))
              (pdiv (pdiv (pdiv dest_base ((monthLookup month).getD "")) day)
                (pname src)) content) src)
              (pdiv (pdiv (pdiv dest_base ((monthLookup month).getD "")) day)
                (pname src)) = some content := by
            rw [fileAt_delFile_ne _ _ (Ne.symm hsd), fileAt_setFile_same]
          have hmf3 : fileAt (delFile (setFile (mkdirParents fs
              (pdiv (pdiv dest_base ((monthLookup month).getD "")) day))
              (pdiv (pdiv (pdiv dest_base ((monthLookup month).getD "")) day)
                (pname src)) content) src)
              (pdiv dest_base "checksums.txt") =
              fileAt fs (pdiv dest_base "checksums.txt") := by
            rw [fileAt_delFile_ne _ _ (Ne.symm hsmf),
              fileAt_setFile_ne _ _ _ (Ne.symm hdmf)]
            rfl
          obtain ⟨r1, r2, r3, r4⟩ := roundtrip_final hash _ fs _ _
            ora.timestamp content hdest hmf3 hdsc hdmf hscmf (hg content)
          rw [hnm] at r2
          refine ⟨content, hfa, ?_, ?_, ?_, ?_⟩
          · rw [hR]
            exact r1
          · rw [hR]
            exact r2
          · rw [hR]
            exact r3
          · rw [hR]
            exact r4
        · have hcs : ((true : Bool) = true) := rfl
          simp only [if_neg hmv, if_pos hcs] at hR
          repeat' split at hR
          all_goals rw [hR] at hsucc
          any_goals exact Bool.noConfusion hsucc
          all_goals try (rename_i hfalse; exact absurd trivial hfalse)
          have hdest : fileAt (setFile (mkdirParents fs
              (pdiv (pdiv dest_base ((monthLookup month).getD "")) day))
              (pdiv (pdiv (pdiv dest_base ((monthLookup month).getD "")) day)
                (pname src)) content)
              (pdiv (pdiv (pdiv dest_base ((monthLookup month).getD "")) day)
                (pname src)) = some content := fileAt_setFile_same _ _ _
          have hmf3 : fileAt (setFile (mkdirParents fs
              (pdiv (pdiv dest_base ((monthLookup month).getD "")) day))
              (pdiv (pdiv (pdiv dest_base ((monthLookup month).getD "")) day)
                (pname src)) content)
              (pdiv dest_base "checksums.txt") =
              fileAt fs (pdiv dest_base "checksums.txt") := by
            rw [fileAt_setFile_ne _ _ _ (Ne.symm hdmf)]
            rfl
          obtain ⟨r1, r2, r3, r4⟩ := roundtrip_final hash _ fs _ _
            ora.timestamp content hdest hmf3 hdsc hdmf hscmf (hg content)
          rw [hnm] at r2
          refine ⟨content, hfa, ?_, ?_, ?_, ?_⟩
          · rw [hR]
            exact r1
          · rw [hR]
            exact r2
          · rw [hR]
            exact r3
          · rw [hR]
            exact r4
      next h1 h2 =>
        rw [hR] at hsucc
        exact Bool.noConfusion hsucc

lemma hashW_goodDigest : ∀ c, goodDigest (hashW c) :=
  fun _ => ⟨(by decide : ("abc123" : String).data ≠ []),
            (by decide : ∀ x ∈ ("abc123" : String).data, x.isWhitespace = false)⟩

/-- Witness for C7 at a concrete input. -/
theorem checksum_roundtrip_witness :
    (('/' ∉ (pname wSrc).data ∧ pname wSrc ≠ "" ∧ pname wSrc ≠ ".") ∧
     (∀ c, goodDigest (hashW c)) ∧
     parse_filename (pname wSrc) = some ("03", "15") ∧
     succOf (import_file hashW wFSsrc wSrc wBase "copy" true oraOk) = true) ∧
    (∃ content,
      fileAt wFSsrc wSrc = some content ∧
      calculate_sha256 hashW
        (outFS (import_file hashW wFSsrc wSrc wBase "copy" true oraOk))
        (pdiv (pdiv (pdiv wBase ((monthLookup "03").getD "")) "15")
          (pname wSrc)) = some (hashW content) ∧
      fileAt (outFS (import_file hashW wFSsrc wSrc wBase "copy" true oraOk))
        (sidecar_path (pdiv (pdiv (pdiv wBase
          ((monthLookup "03").getD "")) "15") (pname wSrc))) =
        some (hashW content ++ " *" ++ pname wSrc ++ "\n") ∧
      fileAt (outFS (import_file hashW wFSsrc wSrc wBase "copy" true oraOk))
        (pdiv wBase "checksums.txt") =
        some ((fileAt wFSsrc (pdiv wBase "checksums.txt")).getD "" ++
          (hashW content ++ "  " ++
            pathStr (relative_to
              (pdiv (pdiv (pdiv wBase ((monthLookup "03").getD "")) "15")
                (pname wSrc))
              (parentDir (pdiv wBase "checksums.txt"))) ++
            "  # imported " ++ oraOk.timestamp ++ "\n")) ∧
      verify_sidecar hashW
        (outFS (import_file hashW wFSsrc wSrc wBase "copy" true oraOk))
        (pdiv (pdiv (pdiv wBase ((monthLookup "03").getD "")) "15")
          (pname wSrc)) = .ok (some true)) :=
  ⟨⟨⟨by decide, by decide, by decide⟩,
    hashW_goodDigest, by decide, by decide⟩,
   checksum_roundtrip hashW wFSsrc wSrc wBase "copy" oraOk "03" "15"
     ⟨by decide, by decide, by decide⟩ hashW_goodDigest
     (by decide) (by decide)⟩

/-! ### Idempotence machinery -/

lemma parse_parts_valid {nm m d : String} (hv : validName nm)
    (hp : parse_filename nm = some (m, d)) :
    validName d ∧ validName ((monthLookup m).getD "") := by
  obtain ⟨hslash, hne, hnd⟩ := hv
  have hname : pyName nm = nm := by
    unfold pyName
    rw [pathParts_single hslash hne hnd]
    rfl
  obtain ⟨-, -, h2, -, hd, hmem, -⟩ := (parse_filename_spec nm m d).mp hp
  have hdd : d.data =
      (((pyStem (pyName nm)).data.takeWhile (fun c => c ≠ '_')).drop 4).take 2 := by
    rw [hd]
  have hdlen : d.data.length = 2 := by
    rw [hdd, List.length_take, List.length_drop, h2]
    rfl
  have hdsub : ∀ x ∈ d.data, x ∈ nm.data := by
    intro x hx
    rw [hdd] at hx
    have hx1 := List.mem_of_mem_take hx
    have hx2 := List.mem_of_mem_drop hx1
    have hx3 := List.takeWhile_subset _ hx2
    rw [hname] at hx3
    exact stem_chars_subset x hx3
  refine ⟨⟨fun hx => hslash (hdsub '/' hx), ?_, ?_⟩, ?_⟩
  · intro he
    rw [he] at hdlen
    exact absurd hdlen (by decide)
  · intro he
    rw [he] at hdlen
    exact absurd hdlen (by decide)
  · rw [← monthLookup_isSome_iff] at hmem
    obtain ⟨mf, hmf⟩ := Option.isSome_iff_exists.mp hmem
    rw [hmf]
    exact monthLookup_label_ok hmf

lemma planned_shape (base : PPath) {nm m d : String} (hv : validName nm)
    (hp : parse_filename nm = some (m, d)) :
    pdiv (pdiv (pdiv base ((monthLookup m).getD "")) d) nm =
      ⟨base.absolute, base.parts ++ [(monthLookup m).getD "", d, nm]⟩ ∧
    pdiv (pdiv base ((monthLookup m).getD "")) d =
      ⟨base.absolute, base.parts ++ [(monthLookup m).getD "", d]⟩ := by
  obtain ⟨hdv, hmv⟩ := parse_parts_valid hv hp
  have e1 : pdiv base ((monthLookup m).getD "") =
      ⟨base.absolute, base.parts ++ [(monthLookup m).getD ""]⟩ :=
    pdiv_single _ hmv.1 hmv.2.1 hmv.2.2
  have e2 : pdiv (pdiv base ((monthLookup m).getD "")) d =
      ⟨base.absolute, base.parts ++ [(monthLookup m).getD "", d]⟩ := by
    rw [e1, pdiv_single _ hdv.1 hdv.2.1 hdv.2.2]
    simp
  refine ⟨?_, e2⟩
  rw [e2, pdiv_single _ hv.1 hv.2.1 hv.2.2]
  simp

lemma isDir_mkdirParents_longer {fs : FS} {dd q : PPath}
    (h : isDir fs q = false) (hlen : dd.parts.length < q.parts.length) :
    isDir (mkdirParents fs dd) q = false := by
  unfold isDir at h ⊢
  unfold mkdirParents
  dsimp only
  rw [← Bool.not_eq_true]
  intro hc
  rw [List.elem_iff, List.mem_append] at hc
  rcases hc with hc | hc
  · obtain ⟨i, hi, heq⟩ := List.mem_map.mp hc
    have hq := congrArg PPath.parts heq
    dsimp at hq
    have hql := congrArg List.length hq
    rw [List.length_take] at hql
    have hmin : min i dd.parts.length ≤ dd.parts.length := Nat.min_le_right _ _
    omega
  · have hcc := List.elem_iff.mpr hc
    have h' : List.elem q fs.dirs = false := h
    rw [h'] at hcc
    exact Bool.noConfusion hcc

lemma isPrefixOf_append_self (l t : List Char) : l.isPrefixOf (l ++ t) = true := by
  induction l with
  | nil => simp [List.isPrefixOf]
  | cons c cs ih => simp [List.isPrefixOf, ih]

lemma not_prefix_of_head_ne {a b : Char} (l t : List Char) (h : ¬ a = b) :
    (a :: l).isPrefixOf (b :: t) = false := by
  simp [List.isPrefixOf, h]

lemma already_prefix_already (nm : String) :
    ("File already exists: ".data.isPrefixOf
      ("File already exists: " ++ nm).data) = true := by
  rw [show ("File already exists: " ++ nm).data =
    "File already exists: ".data ++ nm.data from rfl]
  exact isPrefixOf_append_self _ _

lemma not_already_prefix_could (nm : String) :
    ("File already exists: ".data.isPrefixOf
      ("Could not parse date from " ++ nm).data) = false := by
  rw [show "File already exists: ".data =
    'F' :: "ile already exists: ".data from rfl]
  rw [show ("Could not parse date from " ++ nm).data =
    'C' :: ("ould not parse date from ".data ++ nm.data) from rfl]
  exact not_prefix_of_head_ne _ _ (by decide)

lemma isDir_mkdirParents_mono {fs : FS} {d q : PPath}
    (h : isDir fs q = true) : isDir (mkdirParents fs d) q = true := by
  have h' : List.elem q fs.dirs = true := h
  have hm : q ∈ fs.dirs := List.elem_iff.mp h'
  have hg : List.elem q (((List.range (d.parts.length + 1)).map
      (fun i => (⟨d.absolute, d.parts.take i⟩ : PPath))) ++ fs.dirs) = true :=
    List.elem_iff.mpr (List.mem_append.mpr (Or.inr hm))
  exact hg

lemma isDir_mkdirParents_self (fs : FS) (d : PPath) :
    isDir (mkdirParents fs d) d = true := by
  have hm : d ∈ (List.range (d.parts.length + 1)).map
      (fun i => (⟨d.absolute, d.parts.take i⟩ : PPath)) := by
    refine List.mem_map.mpr
      ⟨d.parts.length, List.mem_range.mpr (Nat.lt_succ_self _), ?_⟩
    show (⟨d.absolute, d.parts.take d.parts.length⟩ : PPath) = d
    rw [List.take_length]
  have hg : List.elem d (((List.range (d.parts.length + 1)).map
      (fun i => (⟨d.absolute, d.parts.take i⟩ : PPath))) ++ fs.dirs) = true :=
    List.elem_iff.mpr (List.mem_append.mpr (Or.inl hm))
  exact hg

/-- A per-file import never removes a directory: any directory present
before the call is still present afterwards, whatever branch ran. -/
lemma isDir_import_file_mono (hash : String → String) (fs : FS)
    (src dest_base : PPath) (mode : String) (cs : Bool) (ora : IOOracle)
    (q : PPath) (h : isDir fs q = true) :
    isDir (outFS (import_file hash fs src dest_base mode cs ora)) q = true := by
  set R := import_file hash fs src dest_base mode cs ora with hR
  clear_value R
  unfold import_file at hR
  split at hR
  next heq =>
    rw [hR]
    exact h
  next month day heq =>
    dsimp only at hR
    split at hR
    next hraise =>
      rw [hR]
      exact h
    next hraise =>
      split at hR
      next hex =>
        rw [hR]
        exact isDir_mkdirParents_mono h
      next hex =>
        split at hR
        next content hfa htr =>
          repeat' split at hR
          all_goals rw [hR]; exact isDir_mkdirParents_mono h
        next h1 h2 =>
          rw [hR]
          exact isDir_mkdirParents_mono h

/-- A batch run never removes a directory either. -/
lemma isDir_import_files_mono (hash : String → String) (fs : FS)
    (files : List PPath) (dest_base : PPath) (mode : String) (cs : Bool)
    (oras : Nat → IOOracle) (fsr : FS) (s k : Nat) (errs : List String)
    (trace : List (Bool × String))
    (hok : import_files hash fs files dest_base mode cs oras =
      .ok (fsr, s, k, errs, trace))
    (q : PPath) (h : isDir fs q = true) : isDir fsr q = true := by
  induction files generalizing fs oras fsr s k errs trace with
  | nil =>
    unfold import_files at hok
    simp only [Except.ok.injEq, Prod.mk.injEq] at hok
    obtain ⟨hfs, -, -, -, -⟩ := hok
    rw [← hfs]
    exact h
  | cons f rest ih =>
    unfold import_files at hok
    split at hok
    next fsE heq1 => exact Except.noConfusion hok
    next r1 heq1 =>
      split at hok
      next fsE heq2 => exact Except.noConfusion hok
      next rr heq2 =>
        simp only [Except.ok.injEq, Prod.mk.injEq] at hok
        obtain ⟨hfs, -, -, -, -⟩ := hok
        have h1 : isDir r1.1 q = true := by
          have hmono := isDir_import_file_mono hash fs f dest_base mode cs
            (oras 0) q h
          rw [heq1] at hmono
          exact hmono
        rw [← hfs]
        exact ih r1.1 (fun n => oras (n + 1)) rr.1 rr.2.1 rr.2.2.1
          rr.2.2.2.1 rr.2.2.2.2 heq2 h1

/-- Re-running the import when every parseable file's planned
destination already holds a file and its destination directory already
exists (as both do after a completed first run): the batch returns,
everything is skipped as already-exists, nothing is imported, and no
file content changes. -/
lemma import_files_existing (hash : String → String) (fs : FS)
    (files : List PPath) (dest_base : PPath) (oras : Nat → IOOracle)
    (hex : ∀ f ∈ files, ∀ m d, parse_filename (pname f) = some (m, d) →
      (fileAt fs (pdiv (pdiv (pdiv dest_base ((monthLookup m).getD "")) d)
        (pname f))).isSome = true)
    (hdir : ∀ f ∈ files, ∀ m d, parse_filename (pname f) = some (m, d) →
      isDir fs (pdiv (pdiv dest_base ((monthLookup m).getD "")) d) = true) :
    ∃ fsr k errs trace,
      import_files hash fs files dest_base "copy" false oras =
        .ok (fsr, 0, k, errs, trace) ∧
      fsr.files = fs.files ∧
      (trace.filter
          (fun r => "File already exists: ".data.isPrefixOf r.2.data)).length =
        (files.filter (fun f => (parse_filename (pname f)).isSome)).length := by
  induction files generalizing fs oras with
  | nil => exact ⟨fs, 0, [], [], rfl, rfl, rfl⟩
  | cons f rest ih =>
    rcases hp : parse_filename (pname f) with - | ⟨m, d⟩
    · have h1 : import_file hash fs f dest_base "copy" false (oras 0) =
          .ok (fs, false, "Could not parse date from " ++ pname f) := by
        unfold import_file
        rw [hp]
      obtain ⟨fsr, k, errs, tr, heq, hfiles, hcount⟩ :=
        ih fs (fun n => oras (n + 1))
          (fun g hg m' d' hpg => hex g (List.mem_cons_of_mem f hg) m' d' hpg)
          (fun g hg m' d' hpg => hdir g (List.mem_cons_of_mem f hg) m' d' hpg)
      refine ⟨fsr, (if false = true then 0 else 1) + k,
        (if !(false : Bool) && !containsSub "already exists".data
            ("Could not parse date from " ++ pname f).data
          then ["Could not parse date from " ++ pname f] else []) ++ errs,
        (false, "Could not parse date from " ++ pname f) :: tr,
        ?_, hfiles, ?_⟩
      · unfold import_files
        rw [h1]
        dsimp only
        rw [heq]
        rfl
      · rw [List.filter_cons, List.filter_cons]
        rw [if_neg (by rw [not_already_prefix_could]; exact Bool.false_ne_true)]
        rw [if_neg (by rw [hp]; exact Bool.false_ne_true)]
        exact hcount
    · have hdir0 := hdir f (List.mem_cons_self f rest) m d hp
      have hex0 := hex f (List.mem_cons_self f rest) m d hp
      have hex1 : fileAt (mkdirParents fs
          (pdiv (pdiv dest_base ((monthLookup m).getD "")) d))
          (pdiv (pdiv (pdiv dest_base ((monthLookup m).getD "")) d)
            (pname f)) = fileAt fs (pdiv (pdiv (pdiv dest_base
            ((monthLookup m).getD "")) d) (pname f)) := rfl
      have h1 : import_file hash fs f dest_base "copy" false (oras 0) =
          .ok (mkdirParents fs
              (pdiv (pdiv dest_base ((monthLookup m).getD "")) d),
            false, "File already exists: " ++ pname f) := by
        unfold import_file
        rw [hp]
        dsimp only
        rw [if_neg (show ¬ ((!(isDir fs (pdiv (pdiv dest_base
            ((monthLookup m).getD "")) d)) && !(oras 0).mkdirOk) = true) from by
          simp [hdir0])]
        rw [if_pos (by
          unfold pexists
          rw [hex1, Bool.or_eq_true]
          left
          exact hex0)]
      obtain ⟨fsr, k, errs, tr, heq, hfiles, hcount⟩ :=
        ih (mkdirParents fs (pdiv (pdiv dest_base ((monthLookup m).getD "")) d))
          (fun n => oras (n + 1))
          (fun g hg m' d' hpg => hex g (List.mem_cons_of_mem f hg) m' d' hpg)
          (fun g hg m' d' hpg => isDir_mkdirParents_mono
            (hdir g (List.mem_cons_of_mem f hg) m' d' hpg))
      refine ⟨fsr, (if false = true then 0 else 1) + k,
        (if !(false : Bool) && !containsSub "already exists".data
            ("File already exists: " ++ pname f).data
          then ["File already exists: " ++ pname f] else []) ++ errs,
        (false, "File already exists: " ++ pname f) :: tr, ?_, ?_, ?_⟩
      · unfold import_files
        rw [h1]
        dsimp only
        rw [heq]
        rfl
      · rw [hfiles]
        rfl
      · rw [List.filter_cons, List.filter_cons]
        rw [if_pos (by rw [already_prefix_already])]
        rw [if_pos (by rw [hp]; rfl)]
        simp [hcount]

/-- A fresh first run with `mode=copy`: with working I/O (mkdir and
transfer), distinct planned destinations and no pre-existing
destination, the batch returns; every parseable file is imported, its
planned destination holds a file and its destination directory exists
afterwards, and nothing else is touched. -/
lemma import_files_fresh (hash : String → String) (fs : FS)
    (files : List PPath) (dest_base : PPath) (oras : Nat → IOOracle)
    (hora : ∀ n, (oras n).transferOk = true)
    (homk : ∀ n, (oras n).mkdirOk = true)
    (hv : ∀ f ∈ files, validName (pname f))
    (hsome : ∀ f ∈ files, (parse_filename (pname f)).isSome = true →
      (fileAt fs f).isSome = true)
    (hfresh : ∀ f ∈ files, ∀ m d, parse_filename (pname f) = some (m, d) →
      pexists fs (pdiv (pdiv (pdiv dest_base ((monthLookup m).getD "")) d)
        (pname f)) = false)
    (hdisj : List.Pairwise (fun f g => ∀ m d m' d',
      parse_filename (pname f) = some (m, d) →
      parse_filename (pname g) = some (m', d') →
      pdiv (pdiv (pdiv dest_base ((monthLookup m).getD "")) d) (pname f) ≠
        pdiv (pdiv (pdiv dest_base ((monthLookup m').getD "")) d') (pname g))
      files) :
    ∃ fsr k errs trace,
      import_files hash fs files dest_base "copy" false oras =
        .ok (fsr,
          (files.filter (fun f => (parse_filename (pname f)).isSome)).length,
          k, errs, trace) ∧
      (∀ f ∈ files, ∀ m d, parse_filename (pname f) = some (m, d) →
        (fileAt fsr (pdiv (pdiv (pdiv dest_base ((monthLookup m).getD "")) d)
          (pname f))).isSome = true) ∧
      (∀ f ∈ files, ∀ m d, parse_filename (pname f) = some (m, d) →
        isDir fsr (pdiv (pdiv dest_base ((monthLookup m).getD "")) d) =
          true) ∧
      (∀ p, (∀ f ∈ files, ∀ m d, parse_filename (pname f) = some (m, d) →
          p ≠ pdiv (pdiv (pdiv dest_base ((monthLookup m).getD "")) d)
            (pname f)) →
        fileAt fsr p = fileAt fs p) := by
  induction files generalizing fs oras with
  | nil =>
    refine ⟨fs, 0, [], [], rfl, ?_, ?_, fun p hp => rfl⟩
    · intro f hf
      exact absurd hf (List.not_mem_nil f)
    · intro f hf
      exact absurd hf (List.not_mem_nil f)
  | cons f rest ih =>
    rw [List.pairwise_cons] at hdisj
    obtain ⟨hhead, htail⟩ := hdisj
    rcases hp : parse_filename (pname f) with - | ⟨m, d⟩
    · have h1 : import_file hash fs f dest_base "copy" false (oras 0) =
          .ok (fs, false, "Could not parse date from " ++ pname f) := by
        unfold import_file
        rw [hp]
      obtain ⟨fsr, k, errs, tr, heq, i2, i2d, i3⟩ :=
        ih fs (fun n => oras (n + 1)) (fun n => hora (n + 1))
          (fun n => homk (n + 1))
          (fun g hg => hv g (List.mem_cons_of_mem f hg))
          (fun g hg => hsome g (List.mem_cons_of_mem f hg))
          (fun g hg => hfresh g (List.mem_cons_of_mem f hg)) htail
      refine ⟨fsr, (if false = true then 0 else 1) + k,
        (if !(false : Bool) && !containsSub "already exists".data
            ("Could not parse date from " ++ pname f).data
          then ["Could not parse date from " ++ pname f] else []) ++ errs,
        (false, "Could not parse date from " ++ pname f) :: tr,
        ?_, ?_, ?_, ?_⟩
      · unfold import_files
        rw [h1]
        dsimp only
        rw [heq]
        rw [show ((f :: rest).filter
            (fun g => (parse_filename (pname g)).isSome)) =
            rest.filter (fun g => (parse_filename (pname g)).isSome) from by
          rw [List.filter_cons, if_neg (by rw [hp]; exact Bool.false_ne_true)]]
        simp
      · intro g hg m' d' hpg
        rcases List.mem_cons.mp hg with rfl | hg
        · rw [hpg] at hp
          exact Option.noConfusion hp
        · exact i2 g hg m' d' hpg
      · intro g hg m' d' hpg
        rcases List.mem_cons.mp hg with rfl | hg
        · rw [hpg] at hp
          exact Option.noConfusion hp
        · exact i2d g hg m' d' hpg
      · intro p hpp
        exact i3 p (fun g hg => hpp g (List.mem_cons_of_mem f hg))
    · have hvf := hv f (List.mem_cons_self f rest)
      obtain ⟨hshape1, hshape2⟩ := planned_shape dest_base hvf hp
      have hlen : (pdiv (pdiv dest_base ((monthLookup m).getD "")) d).parts.length <
          (pdiv (pdiv (pdiv dest_base ((monthLookup m).getD "")) d)
            (pname f)).parts.length := by
        rw [show (pdiv (pdiv (pdiv dest_base ((monthLookup m).getD "")) d)
          (pname f)).parts = dest_base.parts ++
            [(monthLookup m).getD "", d, pname f] from by rw [hshape1]]
        rw [show (pdiv (pdiv dest_base ((monthLookup m).getD "")) d).parts =
          dest_base.parts ++ [(monthLookup m).getD "", d] from by rw [hshape2]]
        simp
      have hfr0 := hfresh f (List.mem_cons_self f rest) m d hp
      unfold pexists at hfr0
      obtain ⟨hfa0, hdir0⟩ := Bool.or_eq_false_iff.mp hfr0
      have hfilenone : fileAt fs (pdiv (pdiv (pdiv dest_base
          ((monthLookup m).getD "")) d) (pname f)) = none :=
        isSome_false_none hfa0
      have hdir1 : isDir (mkdirParents fs (pdiv (pdiv dest_base
          ((monthLookup m).getD "")) d)) (pdiv (pdiv (pdiv dest_base
          ((monthLookup m).getD "")) d) (pname f)) = false :=
        isDir_mkdirParents_longer hdir0 hlen
      have hpx : pexists (mkdirParents fs (pdiv (pdiv dest_base
          ((monthLookup m).getD "")) d)) (pdiv (pdiv (pdiv dest_base
          ((monthLookup m).getD "")) d) (pname f)) = false := by
        unfold pexists
        rw [show fileAt (mkdirParents fs (pdiv (pdiv dest_base
          ((monthLookup m).getD "")) d)) (pdiv (pdiv (pdiv dest_base
          ((monthLookup m).getD "")) d) (pname f)) = fileAt fs
            (pdiv (pdiv (pdiv dest_base ((monthLookup m).getD "")) d)
              (pname f)) from rfl]
        rw [hfilenone, hdir1]
        rfl
      obtain ⟨content, hcontent⟩ := Option.isSome_iff_exists.mp
        (hsome f (List.mem_cons_self f rest) (by rw [hp]; rfl))
      have hcontent' : fileAt (mkdirParents fs (pdiv (pdiv dest_base
          ((monthLookup m).getD "")) d)) f = some content := hcontent
      have h1 : import_file hash fs f dest_base "copy" false (oras 0) =
          .ok (setFile (mkdirParents fs (pdiv (pdiv dest_base
              ((monthLookup m).getD "")) d))
            (pdiv (pdiv (pdiv dest_base ((monthLookup m).getD "")) d)
              (pname f)) content,
           true, "Copied" ++ ": " ++ pname f ++ " -> " ++
             (monthLookup m).getD "" ++ "/" ++ d ++ "/") := by
        unfold import_file
        rw [hp]
        dsimp only
        rw [if_neg (show ¬ ((!(isDir fs (pdiv (pdiv dest_base
            ((monthLookup m).getD "")) d)) && !(oras 0).mkdirOk) = true) from by
          simp [homk 0])]
        rw [if_neg (by rw [hpx]; exact Bool.false_ne_true)]
        rw [hcontent', hora 0]
        dsimp only
        simp only [if_neg (show ¬ ("copy" = "move") from by decide)]
        rfl
      have hsome' : ∀ g ∈ rest, (parse_filename (pname g)).isSome = true →
          (fileAt (setFile (mkdirParents fs (pdiv (pdiv dest_base
            ((monthLookup m).getD "")) d)) (pdiv (pdiv (pdiv dest_base
            ((monthLookup m).getD "")) d) (pname f)) content) g).isSome =
          true := by
        intro g hg hpg
        by_cases hgD : g = pdiv (pdiv (pdiv dest_base
            ((monthLookup m).getD "")) d) (pname f)
        · rw [hgD, fileAt_setFile_same]
          rfl
        · rw [fileAt_setFile_ne _ _ _ hgD]
          exact hsome g (List.mem_cons_of_mem f hg) hpg
      have hfresh' : ∀ g ∈ rest, ∀ m' d',
          parse_filename (pname g) = some (m', d') →
          pexists (setFile (mkdirParents fs (pdiv (pdiv dest_base
            ((monthLookup m).getD "")) d)) (pdiv (pdiv (pdiv dest_base
            ((monthLookup m).getD "")) d) (pname f)) content)
            (pdiv (pdiv (pdiv dest_base ((monthLookup m').getD "")) d')
              (pname g)) = false := by
        intro g hg m' d' hpg
        have hne := hhead g hg m d m' d' hp hpg
        have hfrg := hfresh g (List.mem_cons_of_mem f hg) m' d' hpg
        unfold pexists at hfrg
        obtain ⟨hfag, hdirg⟩ := Bool.or_eq_false_iff.mp hfrg
        have hlen' : (pdiv (pdiv dest_base ((monthLookup m).getD ""))
            d).parts.length < (pdiv (pdiv (pdiv dest_base
            ((monthLookup m').getD "")) d') (pname g)).parts.length := by
          obtain ⟨hshape1', -⟩ := planned_shape dest_base
            (hv g (List.mem_cons_of_mem f hg)) hpg
          rw [show (pdiv (pdiv (pdiv dest_base ((monthLookup m').getD ""))
            d') (pname g)).parts = dest_base.parts ++
              [(monthLookup m').getD "", d', pname g] from by rw [hshape1']]
          rw [show (pdiv (pdiv dest_base ((monthLookup m).getD "")) d).parts =
            dest_base.parts ++ [(monthLookup m).getD "", d] from by
              rw [hshape2]]
          simp
        unfold pexists
        rw [fileAt_setFile_ne _ _ _ (Ne.symm hne)]
        rw [show fileAt (mkdirParents fs (pdiv (pdiv dest_base
          ((monthLookup m).getD "")) d)) (pdiv (pdiv (pdiv dest_base
          ((monthLookup m').getD "")) d') (pname g)) = fileAt fs
            (pdiv (pdiv (pdiv dest_base ((monthLookup m').getD "")) d')
              (pname g)) from rfl]
        rw [isSome_false_none hfag]
        rw [show isDir (setFile (mkdirParents fs (pdiv (pdiv dest_base
          ((monthLookup m).getD "")) d)) (pdiv (pdiv (pdiv dest_base
          ((monthLookup m).getD "")) d) (pname f)) content)
            (pdiv (pdiv (pdiv dest_base ((monthLookup m').getD "")) d')
              (pname g)) = isDir (mkdirParents fs (pdiv (pdiv dest_base
          ((monthLookup m).getD "")) d)) (pdiv (pdiv (pdiv dest_base
          ((monthLookup m').getD "")) d') (pname g)) from rfl]
        rw [isDir_mkdirParents_longer hdirg hlen']
        rfl
      obtain ⟨fsr, k, errs, tr, heq, i2, i2d, i3⟩ :=
        ih (setFile (mkdirParents fs (pdiv (pdiv dest_base
            ((monthLookup m).getD "")) d)) (pdiv (pdiv (pdiv dest_base
            ((monthLookup m).getD "")) d) (pname f)) content)
          (fun n => oras (n + 1)) (fun n => hora (n + 1))
          (fun n => homk (n + 1))
          (fun g hg => hv g (List.mem_cons_of_mem f hg)) hsome' hfresh' htail
      refine ⟨fsr, (if true = true then 0 else 1) + k,
        (if !(true : Bool) && !containsSub "already exists".data
            ("Copied" ++ ": " ++ pname f ++ " -> " ++
              (monthLookup m).getD "" ++ "/" ++ d ++ "/").data
          then ["Copied" ++ ": " ++ pname f ++ " -> " ++
              (monthLookup m).getD "" ++ "/" ++ d ++ "/"] else []) ++ errs,
        (true, "Copied" ++ ": " ++ pname f ++ " -> " ++
          (monthLookup m).getD "" ++ "/" ++ d ++ "/") :: tr,
        ?_, ?_, ?_, ?_⟩
      · unfold import_files
        rw [h1]
        dsimp only
        rw [heq]
        rw [show ((f :: rest).filter
            (fun g => (parse_filename (pname g)).isSome)) =
            f :: rest.filter (fun g => (parse_filename (pname g)).isSome) from by
          rw [List.filter_cons, if_pos (by rw [hp]; rfl)]]
        rw [List.length_cons]
        rw [Nat.add_comm (List.length (rest.filter
          (fun g => (parse_filename (pname g)).isSome))) 1]
        rfl
      · intro g hg m' d' hpg
        rcases List.mem_cons.mp hg with rfl | hg
        · obtain ⟨hm', hd'⟩ := Prod.mk.injEq .. ▸ Option.some.inj
            (hp ▸ hpg : some (m, d) = some (m', d'))
          rw [← hm', ← hd']
          rw [i3 _ (fun g' hg' m'' d'' hpg' =>
            hhead g' hg' m d m'' d'' hp hpg')]
          rw [fileAt_setFile_same]
          rfl
        · exact i2 g hg m' d' hpg
      · intro g hg m' d' hpg
        rcases List.mem_cons.mp hg with rfl | hg
        · obtain ⟨hm', hd'⟩ := Prod.mk.injEq .. ▸ Option.some.inj
            (hp ▸ hpg : some (m, d) = some (m', d'))
          rw [← hm', ← hd']
          exact isDir_import_files_mono hash _ rest dest_base "copy" false
            (fun n => oras (n + 1)) fsr
            ((rest.filter (fun g => (parse_filename (pname g)).isSome)).length)
            k errs tr heq _ (isDir_mkdirParents_self fs _)
        · exact i2d g hg m' d' hpg
      · intro p hpp
        rw [i3 p (fun g hg => hpp g (List.mem_cons_of_mem f hg))]
        rw [fileAt_setFile_ne _ _ _
          (hpp f (List.mem_cons_self f rest) m d hp)]
        rfl

/-- C6 (amended): running the batch twice on an unchanged source with
`mode=copy` (no I/O errors on the first run; every parseable file's
planned destination fresh before the first run; pairwise-distinct
planned destinations) yields: both runs return, the second run has zero
Imported outcomes and exactly `success_count` of the first run
SkippedAlreadyExists outcomes, and the destination tree is
byte-identical after both runs. Without the distinct-destination
proviso the counts differ (see the counterexample). -/
theorem import_twice_idempotent (hash : String → String) (fs : FS)
    (files : List PPath) (dest_base : PPath) (oras oras' : Nat → IOOracle)
    (hora : ∀ n, (oras n).transferOk = true)
    (homk : ∀ n, (oras n).mkdirOk = true)
    (hv : ∀ f ∈ files, validName (pname f))
    (hsome : ∀ f ∈ files, (parse_filename (pname f)).isSome = true →
      (fileAt fs f).isSome = true)
    (hfresh : ∀ f ∈ files, ∀ m d, parse_filename (pname f) = some (m, d) →
      pexists fs (pdiv (pdiv (pdiv dest_base ((monthLookup m).getD "")) d)
        (pname f)) = false)
    (hdisj : List.Pairwise (fun f g => ∀ m d m' d',
      parse_filename (pname f) = some (m, d) →
      parse_filename (pname g) = some (m', d') →
      pdiv (pdiv (pdiv dest_base ((monthLookup m).getD "")) d) (pname f) ≠
        pdiv (pdiv (pdiv dest_base ((monthLookup m').getD "")) d') (pname g))
      files) :
    ∃ fs1 s1 k1 errs1 tr1 fs2 k2 errs2 tr2,
      import_files hash fs files dest_base "copy" false oras =
        .ok (fs1, s1, k1, errs1, tr1) ∧
      import_files hash fs1 files dest_base "copy" false oras' =
        .ok (fs2, 0, k2, errs2, tr2) ∧
      (tr2.filter
          (fun r => "File already exists: ".data.isPrefixOf r.2.data)).length
        = s1 ∧
      fs2.files = fs1.files := by
  obtain ⟨fs1, k1, errs1, tr1, hrun1, c2, c2d, c3⟩ :=
    import_files_fresh hash fs files dest_base oras hora homk hv hsome
      hfresh hdisj
  obtain ⟨fs2, k2, errs2, tr2, hrun2, e1, e2⟩ :=
    import_files_existing hash fs1 files dest_base oras' c2 c2d
  exact ⟨fs1, _, k1, errs1, tr1, fs2, k2, errs2, tr2, hrun1, hrun2, e2, e1⟩

/-- Counterexample for C6 as stated: two source files with the same
name in different folders (an unchanged source the batch can really
produce). Both runs return; the first run imports 1 file (N = 1, the
second file is already an already-exists skip), but the second run
produces 2 SkippedAlreadyExists outcomes, not N. -/
theorem import_twice_cex :
    (batchReport (import_files hashW wDupFS [wDupA, wDupB] wBase "copy"
        false orasOk)).map (fun r => r.1) = some 1 ∧
    (batchReport (import_files hashW
        (batchFS (import_files hashW wDupFS [wDupA, wDupB] wBase "copy"
          false orasOk))
        [wDupA, wDupB] wBase "copy" false orasOk)).map (fun r => r.1) =
      some 0 ∧
    (batchReport (import_files hashW
        (batchFS (import_files hashW wDupFS [wDupA, wDupB] wBase "copy"
          false orasOk))
        [wDupA, wDupB] wBase "copy" false orasOk)).map
        (fun r => (r.2.2.2.filter
          (fun x => "File already exists: ".data.isPrefixOf x.2.data)).length)
      = some 2 :=
  ⟨by decide, by decide, by decide⟩

/-- Witness for C6's amended statement at a concrete input. -/
theorem import_twice_idempotent_witness :
    ((∀ n, (orasOk n).transferOk = true) ∧
     (∀ n, (orasOk n).mkdirOk = true) ∧
     (∀ f ∈ [wSrc], validName (pname f)) ∧
     (∀ f ∈ [wSrc], (parse_filename (pname f)).isSome = true →
       (fileAt wFSsrc f).isSome = true) ∧
     (∀ f ∈ [wSrc], ∀ m d, parse_filename (pname f) = some (m, d) →
       pexists wFSsrc (pdiv (pdiv (pdiv wBase ((monthLookup m).getD "")) d)
         (pname f)) = false)) ∧
    (∃ fs1 s1 k1 errs1 tr1 fs2 k2 errs2 tr2,
      import_files hashW wFSsrc [wSrc] wBase "copy" false orasOk =
        .ok (fs1, s1, k1, errs1, tr1) ∧
      import_files hashW fs1 [wSrc] wBase "copy" false orasOk =
        .ok (fs2, 0, k2, errs2, tr2) ∧
      (tr2.filter
          (fun r => "File already exists: ".data.isPrefixOf r.2.data)).length
        = s1 ∧
      fs2.files = fs1.files) :=
  ⟨⟨fun _ => rfl, fun _ => rfl,
    by intro f hf; rw [List.mem_singleton] at hf; subst hf
       exact ⟨by decide, by decide, by decide⟩,
    by intro f hf; rw [List.mem_singleton] at hf; subst hf
       intro h; decide,
    by intro f hf; rw [List.mem_singleton] at hf; subst hf
       intro m d hmd
       have : (m, d) = ("03", "15") := by
         have h0 : parse_filename (pname wSrc) = some ("03", "15") := by decide
         rw [h0] at hmd
         exact (Option.some.inj hmd).symm
       rw [show m = "03" from congrArg Prod.fst this,
         show d = "15" from congrArg Prod.snd this]
       decide⟩,
   import_twice_idempotent hashW wFSsrc [wSrc] wBase
     orasOk orasOk (fun _ => rfl) (fun _ => rfl)
     (by intro f hf; rw [List.mem_singleton] at hf; subst hf
         exact ⟨by decide, by decide, by decide⟩)
     (by intro f hf; rw [List.mem_singleton] at hf; subst hf
         intro h; decide)
     (by intro f hf; rw [List.mem_singleton] at hf; subst hf
         intro m d hmd
         have : (m, d) = ("03", "15") := by
           have h0 : parse_filename (pname wSrc) = some ("03", "15") := by
             decide
           rw [h0] at hmd
           exact (Option.some.inj hmd).symm
         rw [show m = "03" from congrArg Prod.fst this,
           show d = "15" from congrArg Prod.snd this]
         decide)
     (List.pairwise_singleton _ _)⟩

end UX570
